import Mathlib

/-!
Shallow embedding of the form-data normalization, relationship-resolution and
caching core of `app.py` (ACC Form Exporter), together with theorems settling
the specification claims C1-C10.

Conventions: Python dictionaries with a fixed key set become structures whose
fields are `Option`-valued when the key may be absent; `d.get(k, fb)` becomes
`field.getD fb`; Python truthiness of an optional string/list is "present and
nonempty"; machine-level concerns (float progress arithmetic) are modelled
over `ℚ`, JSON numbers over `ℤ`.
-/

/-- One raw field record from a form's flat (`pdfValues`) or custom
(`customValues`) container (app.py 651-675 / 707-731).  Absent dictionary
keys are `none`.  The `numberVal` slot is the distinct key read only by
`check_form_for_embedded_relationships` (app.py 1257). -/
structure RawItem where
  sectionId : Option String := none
  sectionLabel : Option String := none
  itemId : Option String := none
  itemLabel : Option String := none
  dateVal : Option String := none
  numVal : Option Int := none
  boolVal : Option Bool := none
  listVal : Option (List String) := none
  objVal : Option (List (String × String)) := none
  textVal : Option String := none
  numberVal : Option Int := none
  deriving Repr, DecidableEq

/-- Python truthiness of an optional string (`item.get(k)` used as a
condition): present and nonempty. -/
def strTruthy : Option String → Bool
  | some s => s != ""
  | none => false

/-- Python truthiness of an optional list value. -/
def listTruthy : Option (List String) → Bool
  | some l => !l.isEmpty
  | none => false

/-- Python truthiness of an optional key/value-map value. -/
def objTruthy : Option (List (String × String)) → Bool
  | some l => !l.isEmpty
  | none => false

/-- `get_label(item_id, fallback)` (app.py 644-645): id-mapping lookup with a
caller-supplied fallback. -/
def getLabel (idMap : List (String × String)) (key fallback : String) : String :=
  match idMap.lookup key with
  | some v => v
  | none => fallback

/-- A normalized field value, tagged by the `ftype` the code computes next to
it. -/
inductive FieldValue where
  | s (v : String)
  | n (v : Int)
  | b (v : Bool)
  | l (v : List String)
  | o (v : List (String × String))
  deriving Repr, DecidableEq

/-- The five-way kind/value selection shared verbatim by the `pdfValues` loop
(app.py 656-669) and the `customValues` loop (app.py 712-725):
`dateVal` (truthy) > `numVal is not None` > `boolVal is not None` >
`listVal` (truthy) > `objVal` (truthy) > `textVal` (truthy) > empty text. -/
def normalizeValue (idMap : List (String × String)) (item : RawItem) :
    String × FieldValue :=
  if strTruthy item.dateVal then
    ("date", .s (item.dateVal.getD ""))
  else if item.numVal.isSome then
    ("number", .n (item.numVal.getD 0))
  else if item.boolVal.isSome then
    ("bool", .b (item.boolVal.getD false))
  else if listTruthy item.listVal then
    ("list", .l ((item.listVal.getD []).map fun v => getLabel idMap v v))
  else if objTruthy item.objVal then
    ("object", .o ((item.objVal.getD []).map fun kv =>
      (getLabel idMap kv.1 kv.1, getLabel idMap kv.2 kv.2)))
  else if strTruthy item.textVal then
    ("text", .s (getLabel idMap (item.textVal.getD "") (item.textVal.getD "")))
  else
    ("text", .s "")

/-- One normalized output field (`label`/`type`/`value` record appended to a
section, app.py 671-675). -/
structure NormField where
  label : String
  ftype : String
  value : FieldValue
  deriving Repr, DecidableEq

/-- The whole per-item step of the flat/custom loops: resolve the section
title, the field label, and the kind/value pair. -/
def normalizeFlatItem (idMap : List (String × String)) (sectionFallback : String)
    (item : RawItem) : String × NormField :=
  let title := getLabel idMap (item.sectionId.getD "")
    (item.sectionLabel.getD sectionFallback)
  let tv := normalizeValue idMap item
  (title, { label := getLabel idMap (item.itemId.getD "") (item.itemLabel.getD "Field"),
            ftype := tv.1, value := tv.2 })

/-- A raw tabular cell value; the code discriminates on the Python runtime
type (app.py 685-697). -/
inductive PyVal where
  | b (v : Bool)
  | n (v : Int)
  | l (v : List String)
  | o (v : List (String × String))
  | s (v : String)
  deriving Repr, DecidableEq

/-- One tabular row: an ordered mapping of column key to raw value. -/
abbrev TabRow := List (String × PyVal)

/-- Kind/value selection for one tabular cell (app.py 685-697): `isinstance`
dispatch on bool / number / list / dict, else text resolved through the id
map. -/
def normalizeCell (idMap : List (String × String)) (v : PyVal) :
    String × FieldValue :=
  match v with
  | .b x => ("bool", .b x)
  | .n x => ("number", .n x)
  | .l xs => ("list", .l (xs.map fun e => getLabel idMap e e))
  | .o kvs => ("object", .o (kvs.map fun kv =>
      (getLabel idMap kv.1 kv.1, getLabel idMap kv.2 kv.2)))
  | .s x => ("text", .s (getLabel idMap x x))

/-- The fields produced by one tabular section's rows (app.py 681-702):
`enumerate(rows, 1)` makes the row ordinal 1-based in the rendered label. -/
def tabularFields (idMap : List (String × String)) (rows : List TabRow) :
    List NormField :=
  (rows.enum).flatMap fun ir =>
    ir.2.map fun kv =>
      let cell := normalizeCell idMap kv.2
      { label := getLabel idMap kv.1 kv.1 ++ " (Row " ++ toString (ir.1 + 1) ++ ")",
        ftype := cell.1, value := cell.2 }

/-- The ordered section map (a Python dict preserves insertion order). -/
abbrev SectionMap := List (String × List NormField)

/-- Python dict assignment `d[k] = v`: an existing key keeps its position and
gets the new value, a new key is appended at the end (insertion order). -/
def dictSet (sm : SectionMap) (title : String) (fields : List NormField) :
    SectionMap :=
  match sm with
  | [] => [(title, fields)]
  | (k, v) :: rest =>
    if k == title then (k, fields) :: rest else (k, v) :: dictSet rest title fields

/-- `section_map[title] = section_map.get(title, []) + fields`: append to an
existing same-titled section, else append a new section at the end.  The flat
and custom loops (app.py 653-654, 671, 709-710, 727) perform exactly this
with a one-element field list. -/
def smSetAppend (sm : SectionMap) (title : String) (fields : List NormField) :
    SectionMap :=
  dictSet sm title ((sm.lookup title).getD [] ++ fields)

/-- One pass over a flat-style container (`pdfValues` with fallback
"General", `customValues` with fallback "Custom Fields"). -/
def processFlat (idMap : List (String × String)) (sectionFallback : String)
    (sm : SectionMap) (items : List RawItem) : SectionMap :=
  items.foldl (fun sm item =>
    let tf := normalizeFlatItem idMap sectionFallback item
    smSetAppend sm tf.1 [tf.2]) sm

/-- One tabular section's step (app.py 678-704): resolve the title, build the
row fields, and only if at least one field was produced merge them into the
section map. -/
def processTabularSection (idMap : List (String × String)) (sm : SectionMap)
    (sec : String × List TabRow) : SectionMap :=
  let title := getLabel idMap sec.1 sec.1
  let fields := tabularFields idMap sec.2
  if fields.isEmpty then sm else smSetAppend sm title fields

/-- The `tabularValues` pass. -/
def processTabular (idMap : List (String × String)) (sm : SectionMap)
    (tv : List (String × List TabRow)) : SectionMap :=
  tv.foldl (processTabularSection idMap) sm

/-- A form record, restricted to the fields the embedded core reads. -/
structure FormRecord where
  id : Option String := none
  name : Option String := none
  pdfValues : List RawItem := []
  tabularValues : List (String × List TabRow) := []
  customValues : List RawItem := []
  locationId : Option String := none
  assetId : Option String := none
  deriving Repr, DecidableEq

/-- The section builder (app.py 648-734): flat fields, then tabular fields,
then custom fields, folded into one ordered title-keyed map. -/
def buildSections (idMap : List (String × String)) (form : FormRecord) :
    SectionMap :=
  let sm := processFlat idMap "General" [] form.pdfValues
  let sm := processTabular idMap sm form.tabularValues
  processFlat idMap "Custom Fields" sm form.customValues


/-! ### Helper lemmas about the section map -/

theorem lookup_dictSet_self (sm : SectionMap) (t : String)
    (fs : List NormField) : (dictSet sm t fs).lookup t = some fs := by
  induction sm with
  | nil => simp [dictSet, List.lookup_cons]
  | cons p rest ih =>
    rcases p with ⟨k, v⟩
    by_cases hk : k = t
    · subst hk
      simp [dictSet, List.lookup_cons]
    · simp [dictSet, List.lookup_cons, hk, beq_false_of_ne (Ne.symm hk), ih]

theorem dictSet_keys_of_mem (sm : SectionMap) (t : String) (fs : List NormField)
    (h : (sm.lookup t).isSome) :
    (dictSet sm t fs).map Prod.fst = sm.map Prod.fst := by
  induction sm with
  | nil => simp [List.lookup] at h
  | cons p rest ih =>
    rcases p with ⟨k, v⟩
    by_cases hk : k = t
    · subst hk
      simp [dictSet]
    · rw [List.lookup_cons, beq_false_of_ne (Ne.symm hk)] at h
      simp [dictSet, hk, ih h]

theorem dictSet_of_absent (sm : SectionMap) (t : String) (fs : List NormField)
    (h : sm.lookup t = none) : dictSet sm t fs = sm ++ [(t, fs)] := by
  induction sm with
  | nil => simp [dictSet]
  | cons p rest ih =>
    rcases p with ⟨k, v⟩
    by_cases hk : k = t
    · subst hk
      simp [List.lookup_cons] at h
    · rw [List.lookup_cons, beq_false_of_ne (Ne.symm hk)] at h
      simp [dictSet, hk, ih h]

/-! ### Claim C1 -/

/-- C1: for every raw field record from the flat or custom containers, the
normalizer selects exactly one kind by evaluating the value slots in the
fixed priority order date, number, boolean, list, object, text, taking the
first populated slot; number and boolean count as populated whenever they
are not absent (so `numVal = 0` yields kind "number" with value 0 even when
`textVal` is also set, and `boolVal = false` yields kind "bool"), and a
record with no populated slot yields kind "text" with empty value. -/
theorem normalizeValue_priority (m : List (String × String)) (item : RawItem) :
    (strTruthy item.dateVal = true →
      normalizeValue m item = ("date", .s (item.dateVal.getD ""))) ∧
    (strTruthy item.dateVal = false → ∀ x, item.numVal = some x →
      normalizeValue m item = ("number", .n x)) ∧
    (strTruthy item.dateVal = false → item.numVal = none →
      ∀ b, item.boolVal = some b →
      normalizeValue m item = ("bool", .b b)) ∧
    (strTruthy item.dateVal = false → item.numVal = none →
      item.boolVal = none → listTruthy item.listVal = true →
      normalizeValue m item =
        ("list", .l ((item.listVal.getD []).map fun v => getLabel m v v))) ∧
    (strTruthy item.dateVal = false → item.numVal = none →
      item.boolVal = none → listTruthy item.listVal = false →
      objTruthy item.objVal = true →
      normalizeValue m item = ("object", .o ((item.objVal.getD []).map fun kv =>
        (getLabel m kv.1 kv.1, getLabel m kv.2 kv.2)))) ∧
    (strTruthy item.dateVal = false → item.numVal = none →
      item.boolVal = none → listTruthy item.listVal = false →
      objTruthy item.objVal = false → strTruthy item.textVal = true →
      normalizeValue m item =
        ("text", .s (getLabel m (item.textVal.getD "") (item.textVal.getD "")))) ∧
    (strTruthy item.dateVal = false → item.numVal = none →
      item.boolVal = none → listTruthy item.listVal = false →
      objTruthy item.objVal = false → strTruthy item.textVal = false →
      normalizeValue m item = ("text", .s "")) := by
  unfold normalizeValue
  refine ⟨fun h1 => ?_, fun h1 x hx => ?_, fun h1 h2 b hb => ?_,
    fun h1 h2 h3 h4 => ?_, fun h1 h2 h3 h4 h5 => ?_,
    fun h1 h2 h3 h4 h5 h6 => ?_, fun h1 h2 h3 h4 h5 h6 => ?_⟩ <;>
    simp_all

/-- A record with `numVal = 0` and a stray populated `textVal`. -/
def c1Item : RawItem := { numVal := some 0, textVal := some "ignored" }

/-- Witness for C1 at a concrete record: the zero number wins over the
populated text slot. -/
theorem normalizeValue_priority_witness :
    normalizeValue [] c1Item = ("number", FieldValue.n 0) :=
  (normalizeValue_priority [] c1Item).2.1 rfl 0 rfl

/-! ### Claim C9 -/

/-- A form whose flat container populates section "T" while the tabular
container has a section "T" with an empty row list. -/
def c9Form : FormRecord :=
  { pdfValues := [{ sectionLabel := some "T", textVal := some "x" }],
    tabularValues := [("T", [])] }

/-- C9 counterexample: the claim says the title of a tabular section with an
empty row list "does not appear in the output section list at all", but when
another container contributes fields under the same title, the title does
appear. -/
theorem buildSections_emptyTabular_counterexample :
    ("T", ([] : List TabRow)) ∈ c9Form.tabularValues ∧
    "T" ∈ (buildSections [] c9Form).map Prod.fst := by
  constructor
  · simp [c9Form]
  · have h : (buildSections [] c9Form).map Prod.fst = ["T"] := by decide
    rw [h]
    simp

/-- C9 amended: a tabular section with an empty row list contributes zero
fields and causes no section to be created — the output equals that of the
same form with the empty tabular section removed (so its title appears only
if another container contributes fields under the same title); a tabular
section producing at least one field is appended as a new section when its
title is absent, and merged (fields appended) into the existing same-titled
section otherwise, with the section order unchanged. -/
theorem buildSections_emptyTabular_amended :
    (∀ (m : List (String × String)) (form : FormRecord) pre post t,
       form.tabularValues = pre ++ (t, ([] : List TabRow)) :: post →
       buildSections m form =
         buildSections m { form with tabularValues := pre ++ post }) ∧
    (∀ m sm (sec : String × List TabRow),
       tabularFields m sec.2 ≠ [] →
       ((sm.lookup (getLabel m sec.1 sec.1) = none →
          processTabularSection m sm sec =
            sm ++ [(getLabel m sec.1 sec.1, tabularFields m sec.2)]) ∧
        (∀ fs, sm.lookup (getLabel m sec.1 sec.1) = some fs →
          (processTabularSection m sm sec).lookup (getLabel m sec.1 sec.1) =
            some (fs ++ tabularFields m sec.2) ∧
          (processTabularSection m sm sec).map Prod.fst = sm.map Prod.fst))) := by
  constructor
  · intro m form pre post t h
    show processFlat m "Custom Fields"
        (processTabular m (processFlat m "General" [] form.pdfValues)
          form.tabularValues) form.customValues = _
    rw [h]
    show _ = processFlat m "Custom Fields"
        (processTabular m (processFlat m "General" [] form.pdfValues)
          (pre ++ post)) form.customValues
    unfold processTabular
    rw [List.foldl_append, List.foldl_append, List.foldl_cons]
    simp [processTabularSection, tabularFields]
  · intro m sm sec hne
    have hemp : (tabularFields m sec.2).isEmpty = false := by
      cases hc : tabularFields m sec.2 with
      | nil => exact absurd hc hne
      | cons a l => simp [List.isEmpty]
    have hstep : processTabularSection m sm sec =
        smSetAppend sm (getLabel m sec.1 sec.1) (tabularFields m sec.2) := by
      simp only [processTabularSection, hemp, Bool.false_eq_true, if_false]
    constructor
    · intro habs
      rw [hstep]
      unfold smSetAppend
      rw [habs]
      simpa using dictSet_of_absent sm _ _ habs
    · intro fs hfs
      rw [hstep]
      unfold smSetAppend
      rw [hfs]
      exact ⟨lookup_dictSet_self .., dictSet_keys_of_mem _ _ _ (by rw [hfs]; rfl)⟩

/-- Witness for the amended C9 at concrete inputs: removing the empty
tabular section of `c9Form` leaves the output unchanged, and a one-row
"C" section is appended as a new section. -/
theorem buildSections_emptyTabular_amended_witness :
    buildSections [] c9Form =
      buildSections [] { c9Form with tabularValues := [] } ∧
    processTabularSection [] [] ("C", [[("amount", PyVal.n 100)]]) =
      [] ++ [("C", tabularFields [] [[("amount", PyVal.n 100)]])] := by
  constructor
  · exact buildSections_emptyTabular_amended.1 [] c9Form [] [] "T" rfl
  · exact (buildSections_emptyTabular_amended.2 [] []
      ("C", [[("amount", PyVal.n 100)]]) (by decide)).1 rfl

/-! ### Relationship discovery from form content (app.py 1006-1103, 1241-1306)

String primitives are re-implemented over `List Char` so that concrete
counterexamples evaluate inside the kernel; `pyLower` models `str.lower()`
on the ASCII range, `pyContains` the Python `in` substring test, `pyStrip`
the whitespace `strip()`. -/

/-- ASCII lowering of one character. -/
def pyLowerChar (c : Char) : Char :=
  if 65 ≤ c.toNat ∧ c.toNat ≤ 90 then Char.ofNat (c.toNat + 32) else c

/-- `str.lower()` (ASCII range). -/
def pyLower (s : String) : String := ⟨s.data.map pyLowerChar⟩

/-- `needle in hay` on character lists: the needle is a prefix of some
suffix of the haystack. -/
def infixOfChars (needle : List Char) : List Char → Bool
  | [] => needle.isEmpty
  | c :: t => needle.isPrefixOf (c :: t) || infixOfChars needle t

/-- Python substring containment `sub in hay`. -/
def pyContains (hay sub : String) : Bool := infixOfChars sub.data hay.data

/-- Python whitespace set used by `str.strip()`. -/
def isPySpace (c : Char) : Bool :=
  c = ' ' || c = '\t' || c = '\n' || c = '\r' || c = '\x0b' || c = '\x0c'

/-- `str.strip()` on a character list. -/
def pyStrip (l : List Char) : List Char :=
  ((l.dropWhile isPySpace).reverse.dropWhile isPySpace).reverse

/-- An asset record's `attributes` sub-dictionary as read by the matcher. -/
structure AssetAttrs where
  name : Option String := none
  description : Option String := none
  locationId : Option String := none
  deriving Repr, DecidableEq

/-- An asset record from the project asset list (Assets v1 shape). -/
structure Asset where
  id : Option String := none
  attributes : AssetAttrs := {}
  deriving Repr, DecidableEq

/-- One discovered asset-relationship entry (`id`/`name`/`description`/
`type`/`match_reason` dictionary); `rid` is `none` exactly when the code
stores Python `None` in the `id` slot. -/
structure RefEntry where
  rid : Option String
  name : String
  description : String
  rtype : String
  reason : String
  deriving Repr, DecidableEq

/-- Append `" " ++ s` when the optional string is truthy (the repeated
`form_text += f" {value}"` pattern). -/
def appendIfTruthy (acc : String) (v : Option String) : String :=
  match v with
  | some s => if s != "" then acc ++ " " ++ s else acc
  | none => acc

/-- Text contributed by one flat-style container (app.py 1017-1030):
truthy `textVal` then truthy `itemLabel` of each item. -/
def containerText (acc : String) (items : List RawItem) : String :=
  items.foldl (fun acc item =>
    appendIfTruthy (appendIfTruthy acc item.textVal) item.itemLabel) acc

/-- Text contributed by the tabular container (app.py 1033-1040): every
section name, then every string-typed cell. -/
def tabularText (acc : String) (tv : List (String × List TabRow)) : String :=
  tv.foldl (fun acc sec =>
    sec.2.foldl (fun acc row =>
      row.foldl (fun acc kv =>
        match kv.2 with
        | .s v => acc ++ " " ++ v
        | _ => acc) acc) (acc ++ " " ++ sec.1)) acc

/-- The lowercased search text built from a form (app.py 1014-1042): custom
values, then pdf values, then tabular values. -/
def formText (form : FormRecord) : String :=
  pyLower (tabularText (containerText (containerText "" form.customValues)
    form.pdfValues) form.tabularValues)

/-- Name/description content matching (app.py 1046-1069): at most one entry
per asset, name match taking precedence over description match. -/
def nameDescMatches (ft : String) (avail : List Asset) : List RefEntry :=
  avail.filterMap fun asset =>
    let an := pyLower (asset.attributes.name.getD "")
    let ad := pyLower (asset.attributes.description.getD "")
    if an != "" && pyContains ft an then
      some { rid := some (asset.id.getD ""),
             name := asset.attributes.name.getD "Unknown Asset",
             description := asset.attributes.description.getD "",
             rtype := "name_match",
             reason := "Asset name \"" ++ an ++ "\" found in form content" }
    else if ad != "" && pyContains ft ad then
      some { rid := some (asset.id.getD ""),
             name := asset.attributes.name.getD "Unknown Asset",
             description := asset.attributes.description.getD "",
             rtype := "description_match",
             reason := "Asset description found in form content" }
    else none

/-- Location-based matching (app.py 1072-1084): every asset sharing the
form's truthy `locationId`. -/
def locationMatches (form : FormRecord) (avail : List Asset) : List RefEntry :=
  match form.locationId with
  | some lid =>
    if lid != "" then
      avail.filterMap fun asset =>
        if asset.attributes.locationId == some lid then
          some { rid := some (asset.id.getD ""),
                 name := asset.attributes.name.getD "Unknown Asset",
                 description := asset.attributes.description.getD "",
                 rtype := "location_match",
                 reason := "Same location as form (ID: " ++ lid ++ ")" }
        else none
    else []
  | none => []

/-- The free-text value examined for embedded references (app.py 1252-1260):
truthy `textVal`, else present `numberVal` stringified, else truthy
`dateVal`. -/
def embeddedValue (item : RawItem) : Option String :=
  if strTruthy item.textVal then item.textVal
  else if item.numberVal.isSome then some (toString (item.numberVal.getD 0))
  else if strTruthy item.dateVal then item.dateVal
  else none

/-- `re.search(r'\[([^\]]+)\]', value)`: the content of the leftmost
bracketed token with a nonempty body. -/
def firstBracketAux : List Char → Option (List Char)
  | [] => none
  | c :: cs =>
    if c = '[' then
      let content := cs.takeWhile (fun x => x != ']')
      if content.isEmpty then firstBracketAux cs
      else if (cs.drop content.length).isEmpty then firstBracketAux cs
      else some content
    else firstBracketAux cs

/-- `value.split('[')[0]`. -/
def beforeBracket (l : List Char) : List Char := l.takeWhile (fun c => c != '[')

/-- The asset-keyword test on a lowercased field label (app.py 1278). -/
def labelHasAssetKeyword (label : String) : Bool :=
  pyContains label "asset" || pyContains label "equipment" ||
    pyContains label "component" || pyContains label "reference"

/-- The per-item entries of `check_form_for_embedded_relationships`
(app.py 1249-1285): a bracketed-id `embedded_reference` entry and/or a
keyword-label `field_reference` entry carrying a `None` id. -/
def embeddedFieldEntries (form : FormRecord) : List RefEntry :=
  form.customValues.flatMap fun item =>
    let label := pyLower (item.itemLabel.getD "")
    match embeddedValue item with
    | none => []
    | some v =>
      (if pyContains v "[" && pyContains v "]" then
        match firstBracketAux v.data with
        | some content =>
          [{ rid := some (⟨content⟩ : String),
             name := (⟨pyStrip (beforeBracket v.data)⟩ : String),
             description := "Found in field: " ++ item.itemLabel.getD "",
             rtype := "embedded_reference",
             reason := "Asset ID found in form field: " ++ (⟨content⟩ : String) }]
        | none => []
      else []) ++
      (if labelHasAssetKeyword label then
        [{ rid := none, name := v,
           description := item.itemLabel.getD "Asset Reference",
           rtype := "field_reference",
           reason := "Found in field: " ++ item.itemLabel.getD "" }]
      else [])

/-- The direct-`assetId` metadata entry (app.py 1292-1300). -/
def metadataEntries (form : FormRecord) : List RefEntry :=
  match form.assetId with
  | some aid =>
    [{ rid := some aid, name := "Referenced Asset",
       description := "Direct asset reference in form metadata",
       rtype := "metadata_reference", reason := "Asset ID in form metadata" }]
  | none => []

/-- `check_form_for_embedded_relationships(form_data)` (app.py 1241-1306). -/
def check_form_for_embedded_relationships (form : FormRecord) : List RefEntry :=
  embeddedFieldEntries form ++ metadataEntries form

/-- The combined append order of `find_asset_relationships_in_form`
(app.py 1045-1089): name/description matches, then location matches, then
the embedded/metadata entries. -/
def combinedEntries (form : FormRecord) (avail : List Asset) : List RefEntry :=
  nameDescMatches (formText form) avail ++ locationMatches form avail ++
    check_form_for_embedded_relationships form

/-- The duplicate-removal loop (app.py 1091-1097): keep the first entry for
each `id`, preserving first-encountered order. -/
def dedupByRid : List RefEntry → List (Option String) → List RefEntry
  | [], _ => []
  | e :: rest, seen =>
    if seen.contains e.rid then dedupByRid rest seen
    else e :: dedupByRid rest (e.rid :: seen)

/-- `find_asset_relationships_in_form(form_data, available_assets)`
(app.py 1006-1103): combined strategies, deduplicated by id, capped at 5. -/
def find_asset_relationships_in_form (form : FormRecord) (avail : List Asset) :
    List RefEntry :=
  (dedupByRid (combinedEntries form avail) []).take 5

/-! ### Properties of the duplicate-removal loop -/

theorem dedupByRid_not_seen :
    ∀ (l : List RefEntry) (seen : List (Option String)) (e : RefEntry),
      e ∈ dedupByRid l seen → seen.contains e.rid = false := by
  intro l
  induction l with
  | nil => intro seen e he; simp [dedupByRid] at he
  | cons x rest ih =>
    intro seen e he
    unfold dedupByRid at he
    by_cases hc : seen.contains x.rid
    · rw [if_pos hc] at he
      exact ih seen e he
    · rw [if_neg hc] at he
      rcases List.mem_cons.mp he with rfl | hmem
      · exact Bool.not_eq_true _ ▸ (by simpa using hc)
      · have h2 := ih (x.rid :: seen) e hmem
        simp only [List.contains_cons, Bool.or_eq_false_iff] at h2
        exact h2.2

theorem dedupByRid_sublist :
    ∀ (l : List RefEntry) (seen : List (Option String)),
      (dedupByRid l seen).Sublist l := by
  intro l
  induction l with
  | nil => intro seen; simp [dedupByRid]
  | cons x rest ih =>
    intro seen
    unfold dedupByRid
    by_cases hc : seen.contains x.rid
    · rw [if_pos hc]
      exact (ih seen).trans (List.sublist_cons_self x rest)
    · rw [if_neg hc]
      exact (ih (x.rid :: seen)).cons₂ x

theorem dedupByRid_pairwise :
    ∀ (l : List RefEntry) (seen : List (Option String)),
      (dedupByRid l seen).Pairwise (fun a b => a.rid ≠ b.rid) := by
  intro l
  induction l with
  | nil => intro seen; simp [dedupByRid]
  | cons x rest ih =>
    intro seen
    unfold dedupByRid
    by_cases hc : seen.contains x.rid
    · rw [if_pos hc]; exact ih seen
    · rw [if_neg hc]
      refine List.Pairwise.cons ?_ (ih (x.rid :: seen))
      intro b hb
      have h2 := dedupByRid_not_seen _ _ _ hb
      simp only [List.contains_cons, Bool.or_eq_false_iff, beq_eq_false_iff_ne] at h2
      exact fun hx => h2.1 (hx ▸ rfl)

theorem dedupByRid_head_filter :
    ∀ (l : List RefEntry) (seen : List (Option String)) (e : RefEntry),
      e ∈ dedupByRid l seen →
      (l.filter (fun x => x.rid == e.rid)).head? = some e := by
  intro l
  induction l with
  | nil => intro seen e he; simp [dedupByRid] at he
  | cons x rest ih =>
    intro seen e he
    unfold dedupByRid at he
    by_cases hc : seen.contains x.rid
    · rw [if_pos hc] at he
      have hns := dedupByRid_not_seen rest seen e he
      have hne : x.rid ≠ e.rid := by
        intro hx
        rw [← hx, hc] at hns
        exact Bool.noConfusion hns
      rw [List.filter_cons, if_neg (by simpa using hne)]
      exact ih seen e he
    · rw [if_neg hc] at he
      rcases List.mem_cons.mp he with rfl | hmem
      · rw [List.filter_cons, if_pos (by simp)]
        rfl
      · have h2 := dedupByRid_not_seen _ _ _ hmem
        simp only [List.contains_cons, Bool.or_eq_false_iff, beq_eq_false_iff_ne] at h2
        have hne : x.rid ≠ e.rid := fun hx => h2.1 hx.symm
        rw [List.filter_cons, if_neg (by simpa using hne)]
        exact ih _ e hmem

/-! ### Claim C2 -/

/-- An asset that shares the form's location and is also referenced by a
bracketed token in a form field, but whose name does not occur in the form
text. -/
def cAsset2 : Asset :=
  { id := some "A1",
    attributes := { name := some "Valve Unit", description := some "",
                    locationId := some "L1" } }

/-- A form at location "L1" whose only custom field carries the embedded
reference "Pump [A1]". -/
def cForm2 : FormRecord :=
  { locationId := some "L1",
    customValues := [{ itemLabel := some "Note", textVal := some "Pump [A1]" }] }

/-- C2 counterexample: asset "A1" surfaces both from location matching and
from embedded-reference extraction; the combined result keeps exactly one
entry, but it is the `location_match` entry — not the entry of the
§4.4-higher-priority embedded-reference strategy, because the code appends
embedded references after content and location matches and keeps the first
occurrence. -/
theorem find_asset_dedup_counterexample :
    (locationMatches cForm2 [cAsset2]).map (fun e => (e.rid, e.rtype)) =
      [(some "A1", "location_match")] ∧
    (check_form_for_embedded_relationships cForm2).map (fun e => (e.rid, e.rtype)) =
      [(some "A1", "embedded_reference")] ∧
    (find_asset_relationships_in_form cForm2 [cAsset2]).map
        (fun e => (e.rid, e.rtype)) =
      [(some "A1", "location_match")] := by
  refine ⟨by decide, by decide, by decide⟩

/-- C2 amended: when the same assetId is returned by two strategies for one
form, the combined result contains exactly one entry for that assetId; the
entry kept is the first-encountered one in the code's append order —
name/description content matches, then location matches, then
embedded-reference and metadata entries — and result ordering follows
first-encountered order (the result is a subsequence of the appended
strategy outputs with pairwise-distinct ids, each element being the first
appended entry carrying its id). -/
theorem find_asset_dedup_amended (form : FormRecord) (avail : List Asset) :
    combinedEntries form avail =
      nameDescMatches (formText form) avail ++ locationMatches form avail ++
        check_form_for_embedded_relationships form ∧
    (find_asset_relationships_in_form form avail).Sublist
      (combinedEntries form avail) ∧
    (find_asset_relationships_in_form form avail).Pairwise
      (fun a b => a.rid ≠ b.rid) ∧
    ∀ e ∈ find_asset_relationships_in_form form avail,
      ((combinedEntries form avail).filter (fun x => x.rid == e.rid)).head? =
        some e := by
  refine ⟨rfl, ?_, ?_, ?_⟩
  · exact (List.take_sublist _ _).trans (dedupByRid_sublist _ _)
  · exact (dedupByRid_pairwise (combinedEntries form avail) []).sublist
      (List.take_sublist _ _)
  · intro e he
    exact dedupByRid_head_filter _ _ e
      ((List.take_sublist _ _).mem he)

/-- Witness for the amended C2 at the concrete two-strategy collision: the
kept entry for "A1" is the first-appended (location-match) one. -/
theorem find_asset_dedup_amended_witness :
    ((combinedEntries cForm2 [cAsset2]).filter
        (fun x => x.rid == some "A1")).head? =
      some { rid := some "A1", name := "Valve Unit", description := "",
             rtype := "location_match",
             reason := "Same location as form (ID: L1)" } := by
  have h := (find_asset_dedup_amended cForm2 [cAsset2]).2.2.2
    { rid := some "A1", name := "Valve Unit", description := "",
      rtype := "location_match", reason := "Same location as form (ID: L1)" }
    (by decide)
  exact h

/-! ### Claim C3 -/

theorem dedupByRid_mem_append_last (front : List RefEntry) (m : RefEntry) :
    ∀ seen, (∀ e ∈ front, e.rid ≠ m.rid) → seen.contains m.rid = false →
    m ∈ dedupByRid (front ++ [m]) seen := by
  induction front with
  | nil =>
    intro seen _ hseen
    show m ∈ dedupByRid [m] seen
    unfold dedupByRid
    rw [if_neg (by rw [hseen]; exact Bool.false_ne_true)]
    exact List.mem_cons_self m _
  | cons x rest ih =>
    intro seen hfresh hseen
    have hx : x.rid ≠ m.rid := hfresh x (List.mem_cons_self x rest)
    rw [List.cons_append]
    unfold dedupByRid
    by_cases hc : seen.contains x.rid
    · rw [if_pos hc]
      exact ih seen (fun e he => hfresh e (List.mem_cons_of_mem x he)) hseen
    · rw [if_neg hc]
      refine List.mem_cons_of_mem x (ih (x.rid :: seen)
        (fun e he => hfresh e (List.mem_cons_of_mem x he)) ?_)
      simp only [List.contains_cons, Bool.or_eq_false_iff]
      exact ⟨beq_false_of_ne (fun h => hx h.symm), hseen⟩

/-- A form carrying a direct `assetId` whose content also name-matches the
same asset. -/
def cForm3 : FormRecord :=
  { assetId := some "A1",
    customValues := [{ textVal := some "pump x100" }] }

/-- The asset content-matched by `cForm3`. -/
def cAsset3 : Asset :=
  { id := some "A1", attributes := { name := some "pump x100" } }

/-- C3 counterexample: the form carries a direct `assetId` "A1", yet the
resolution result contains no `metadata_reference` entry at all — the
earlier-appended content (name) match for the same assetId wins the
deduplication, so the metadata entry is dropped rather than emitted
unconditionally. -/
theorem metadata_reference_counterexample :
    cForm3.assetId = some "A1" ∧
    (find_asset_relationships_in_form cForm3 [cAsset3]).map
        (fun e => (e.rid, e.rtype)) = [(some "A1", "name_match")] ∧
    ∀ e ∈ find_asset_relationships_in_form cForm3 [cAsset3],
      e.rtype ≠ "metadata_reference" := by
  refine ⟨rfl, by decide, by decide⟩

/-- C3 amended: the `metadata_reference` entry for a direct `assetId` is
emitted only on the content-fallback path, where it is appended last; it
survives into the result only when no earlier-appended entry (content,
location, or embedded/field reference) carries the same assetId and the
deduplicated list does not exceed the 5-entry cap.  (When the
relationship-graph strategy returns results, this path is not taken at
all — see `get_form_asset_relationships`.) -/
theorem metadata_reference_amended (form : FormRecord) (avail : List Asset)
    (a : String) (hid : form.assetId = some a)
    (hfresh : ∀ e ∈ nameDescMatches (formText form) avail ++
      locationMatches form avail ++ embeddedFieldEntries form, e.rid ≠ some a)
    (hlen : (dedupByRid (combinedEntries form avail) []).length ≤ 5) :
    ∃ e ∈ find_asset_relationships_in_form form avail,
      e.rtype = "metadata_reference" ∧ e.rid = some a := by
  have hmeta : metadataEntries form =
      [{ rid := some a, name := "Referenced Asset",
         description := "Direct asset reference in form metadata",
         rtype := "metadata_reference", reason := "Asset ID in form metadata" }] := by
    unfold metadataEntries
    rw [hid]
  have hcomb : combinedEntries form avail =
      (nameDescMatches (formText form) avail ++ locationMatches form avail ++
        embeddedFieldEntries form) ++ metadataEntries form := by
    unfold combinedEntries check_form_for_embedded_relationships
    simp [List.append_assoc]
  refine ⟨{ rid := some a, name := "Referenced Asset",
            description := "Direct asset reference in form metadata",
            rtype := "metadata_reference", reason := "Asset ID in form metadata" },
          ?_, rfl, rfl⟩
  unfold find_asset_relationships_in_form
  rw [List.take_of_length_le hlen]
  rw [hcomb, hmeta]
  exact dedupByRid_mem_append_last _ _ [] hfresh rfl

/-- Witness for the amended C3: a form whose only entry source is the direct
`assetId` metadata reference. -/
theorem metadata_reference_amended_witness :
    ∃ e ∈ find_asset_relationships_in_form { assetId := some "A9" } [],
      e.rtype = "metadata_reference" ∧ e.rid = some "A9" :=
  metadata_reference_amended { assetId := some "A9" } [] "A9" rfl
    (by decide) (by decide)

/-! ### Claim C4: batch-export progress updates (app.py 3226-3233, 3319-3340,
3412-3420)

Python's `round` (banker's rounding: nearest integer, ties to even) is
modelled on `ℚ`; the float division `(i / len(all_forms)) * 100` is modelled
by exact rational arithmetic, on which the IEEE operations agree up to the
monotonicity and endpoint facts used here. -/

/-- Python `round`: nearest integer, ties to the even neighbour. -/
def pyRound (q : ℚ) : ℤ :=
  if q - ⌊q⌋ < 1 / 2 then ⌊q⌋
  else if 1 / 2 < q - ⌊q⌋ then ⌊q⌋ + 1
  else if Even ⌊q⌋ then ⌊q⌋ else ⌊q⌋ + 1

theorem floor_le_pyRound (q : ℚ) : ⌊q⌋ ≤ pyRound q := by
  unfold pyRound
  split_ifs <;> omega

theorem pyRound_le_floor_add_one (q : ℚ) : pyRound q ≤ ⌊q⌋ + 1 := by
  unfold pyRound
  split_ifs <;> omega

theorem pyRound_mono {q r : ℚ} (h : q ≤ r) : pyRound q ≤ pyRound r := by
  have hf : ⌊q⌋ ≤ ⌊r⌋ := Int.floor_le_floor h
  rcases eq_or_lt_of_le hf with heq | hlt
  · have hd : q - ⌊q⌋ ≤ r - ⌊r⌋ := by
      rw [← heq]
      linarith
    unfold pyRound
    rw [← heq]
    split_ifs <;> first | omega | linarith [hd]
  · calc pyRound q ≤ ⌊q⌋ + 1 := pyRound_le_floor_add_one q
      _ ≤ ⌊r⌋ := by omega
      _ ≤ pyRound r := floor_le_pyRound r

/-- The percentage recorded at loop index `i` of a batch of `n` forms
(app.py 3325, 3330): `round((i / n) * 100)`. -/
def progressPercent (i n : ℕ) : ℤ := pyRound ((i : ℚ) / (n : ℚ) * 100)

/-- The loop indices at which a progress update is recorded
(app.py 3324: `if i % 5 == 0`). -/
def progressUpdateIdxs (n : ℕ) : List ℕ :=
  (List.range n).filter (fun i => i % 5 == 0)

/-- The sequence of percentages recorded for one batch: the initial 0
(app.py 3226-3233), the in-loop updates, and the final 100
(app.py 3412-3419). -/
def recordedPercentages (n : ℕ) : List ℤ :=
  0 :: ((progressUpdateIdxs n).map (fun i => progressPercent i n) ++ [100])

theorem progressPercent_nonneg (i n : ℕ) : 0 ≤ progressPercent i n := by
  have h0 : (0 : ℚ) ≤ (i : ℚ) / (n : ℚ) * 100 := by positivity
  have := floor_le_pyRound ((i : ℚ) / (n : ℚ) * 100)
  have hfl : (0 : ℤ) ≤ ⌊(i : ℚ) / (n : ℚ) * 100⌋ := Int.floor_nonneg.mpr h0
  unfold progressPercent
  omega

theorem progressPercent_le_100 {i n : ℕ} (h : i < n) :
    progressPercent i n ≤ 100 := by
  have hn : (0 : ℚ) < (n : ℚ) := by exact_mod_cast Nat.zero_lt_of_lt h
  have hdiv : (i : ℚ) / (n : ℚ) < 1 := (div_lt_one hn).mpr (by exact_mod_cast h)
  have hq : (i : ℚ) / (n : ℚ) * 100 < 100 := by nlinarith
  have hfl : ⌊(i : ℚ) / (n : ℚ) * 100⌋ < 100 :=
    Int.floor_lt.mpr (by exact_mod_cast hq)
  have := pyRound_le_floor_add_one ((i : ℚ) / (n : ℚ) * 100)
  unfold progressPercent
  omega

theorem progressPercent_mono {i j n : ℕ} (h : i ≤ j) :
    progressPercent i n ≤ progressPercent j n := by
  unfold progressPercent
  apply pyRound_mono
  rcases Nat.eq_zero_or_pos n with hn | hn
  · subst hn
    norm_num
  · have hn2 : (0 : ℚ) < (n : ℚ) := by exact_mod_cast hn
    have hij : (i : ℚ) ≤ (j : ℚ) := by exact_mod_cast h
    have : (i : ℚ) / (n : ℚ) ≤ (j : ℚ) / (n : ℚ) := by gcongr
    nlinarith

theorem pyRound_eq_of_lt_half {q : ℚ} (f : ℤ) (hf : ⌊q⌋ = f)
    (h : q - f < 1 / 2) : pyRound q = f := by
  unfold pyRound
  rw [hf, if_pos h]

theorem pyRound_eq_of_half_lt {q : ℚ} (f : ℤ) (hf : ⌊q⌋ = f)
    (h : 1 / 2 < q - f) : pyRound q = f + 1 := by
  unfold pyRound
  rw [hf, if_neg (by linarith), if_pos h]

/-- C4: for every batch of `n` forms a progress update is recorded at each
0-indexed form index divisible by 5; the recorded percentage sequence is
non-decreasing, starts at 0, and ends at exactly 100 after the last form; a
batch of 12 forms records updates at indices 0, 5, 10 and ends at exactly
100. -/
theorem batch_progress_updates (n : ℕ) :
    (∀ i, i ∈ progressUpdateIdxs n ↔ (i < n ∧ i % 5 = 0)) ∧
    (recordedPercentages n).head? = some 0 ∧
    (recordedPercentages n).getLast? = some 100 ∧
    List.Pairwise (· ≤ ·) (recordedPercentages n) ∧
    progressUpdateIdxs 12 = [0, 5, 10] ∧
    recordedPercentages 12 = [0, 0, 42, 83, 100] := by
  refine ⟨?_, rfl, ?_, ?_, by decide, ?_⟩
  · intro i
    simp [progressUpdateIdxs, List.mem_filter, List.mem_range]
  · show ((0 :: (progressUpdateIdxs n).map (fun i => progressPercent i n)) ++
      [(100 : ℤ)]).getLast? = some 100
    exact List.getLast?_concat _
  · unfold recordedPercentages
    refine List.pairwise_cons.mpr ⟨?_, ?_⟩
    · intro x hx
      rcases List.mem_append.mp hx with hx | hx
      · rcases List.mem_map.mp hx with ⟨i, _, rfl⟩
        exact progressPercent_nonneg i n
      · simp only [List.mem_singleton] at hx
        omega
    · refine (List.pairwise_append).mpr ⟨?_, by simp, ?_⟩
      · have hpw : (progressUpdateIdxs n).Pairwise (· < ·) :=
          (List.pairwise_lt_range n).filter _
        exact List.Pairwise.map _
          (fun a b hab => progressPercent_mono (Nat.le_of_lt hab)) hpw
      · intro x hx y hy
        rcases List.mem_map.mp hx with ⟨i, hi, rfl⟩
        simp only [List.mem_singleton] at hy
        subst hy
        have hin : i < n := List.mem_range.mp (List.mem_filter.mp hi).1
        exact progressPercent_le_100 hin
  · have h1 : progressUpdateIdxs 12 = [0, 5, 10] := by decide
    have e0 : progressPercent 0 12 = 0 := by
      apply pyRound_eq_of_lt_half 0 <;> norm_num
    have e5 : progressPercent 5 12 = 42 := by
      have h := pyRound_eq_of_half_lt (q := (5 : ℕ) / (12 : ℕ) * 100) 41
        (by push_cast; norm_num [Int.floor_eq_iff]) (by push_cast; norm_num)
      unfold progressPercent
      rw [h]
      norm_num
    have e10 : progressPercent 10 12 = 83 := by
      apply pyRound_eq_of_lt_half 83
      · push_cast
        norm_num [Int.floor_eq_iff]
      · push_cast
        norm_num
    unfold recordedPercentages
    rw [h1]
    simp [e0, e5, e10]

/-- Witness for C4 at a concrete batch size. -/
theorem batch_progress_updates_witness :
    5 ∈ progressUpdateIdxs 7 ↔ (5 < 7 ∧ 5 % 5 = 0) :=
  (batch_progress_updates 7).1 5

/-! ### Claim C5: cache eviction (app.py 3823-3945)

A cache table row: project key, serialized payload column, and the
`last_accessed` timestamp (modelled as an integer; the retention window of
`CACHE_CLEANUP_DAYS` is expressed in the same unit). -/

structure CacheRow where
  pid : String
  data : String
  lastAccessed : ℤ
  deriving Repr, DecidableEq

/-- `CACHE_CLEANUP_DAYS = 30` (app.py 3723). -/
def CACHE_CLEANUP_DAYS : ℤ := 30

/-- `CACHE_MAX_PROJECTS = 500` (app.py 3724). -/
def CACHE_MAX_PROJECTS : ℕ := 500

/-- `CACHE_SIZE_THRESHOLD = 100 MB` (app.py 3722). -/
def CACHE_SIZE_THRESHOLD : ℕ := 100 * 1024 * 1024

/-- Descending-recency comparison, the `ORDER BY last_accessed DESC` order. -/
def recencyGE (a b : CacheRow) : Bool := decide (b.lastAccessed ≤ a.lastAccessed)

/-- Step 1 of the cleanup (app.py 3844-3866): delete the rows with
`last_accessed < cutoff`; these are the survivors. -/
def ageSurvivors (now : ℤ) (t : List CacheRow) : List CacheRow :=
  t.filter (fun e => decide (now - CACHE_CLEANUP_DAYS ≤ e.lastAccessed))

/-- Step 2 of the cleanup for one table (app.py 3868-3912): when the count
surviving step 1 (`count - deleted`) exceeds `CACHE_MAX_PROJECTS`, keep only
the most recently accessed `CACHE_MAX_PROJECTS` rows. -/
def evictTable (now : ℤ) (t : List CacheRow) : List CacheRow :=
  let survivors := ageSurvivors now t
  if CACHE_MAX_PROJECTS < survivors.length then
    (survivors.mergeSort recencyGE).take CACHE_MAX_PROJECTS
  else survivors

/-- The three persistent tables (app.py 3782-3809). -/
structure CacheDB where
  locations : List CacheRow
  forms : List CacheRow
  relationships : List CacheRow
  deriving Repr, DecidableEq

/-- `cleanup_old_cache_entries()` (app.py 3823-3945): age- then
capacity-eviction, applied to each of the three tables separately. -/
def cleanup_old_cache_entries (now : ℤ) (db : CacheDB) : CacheDB :=
  { locations := evictTable now db.locations,
    forms := evictTable now db.forms,
    relationships := evictTable now db.relationships }

theorem evictTable_subset_survivors (now : ℤ) (t : List CacheRow) :
    evictTable now t ⊆ ageSurvivors now t := by
  unfold evictTable
  by_cases h : CACHE_MAX_PROJECTS < (ageSurvivors now t).length
  · rw [if_pos h]
    intro x hx
    exact ((ageSurvivors now t).mergeSort_perm recencyGE).subset
      ((List.take_subset _ _) hx)
  · rw [if_neg h]
    exact fun x hx => hx

theorem evictTable_length_le (now : ℤ) (t : List CacheRow) :
    (evictTable now t).length ≤ CACHE_MAX_PROJECTS := by
  unfold evictTable
  by_cases h : CACHE_MAX_PROJECTS < (ageSurvivors now t).length
  · rw [if_pos h]
    simp [List.length_take]
  · rw [if_neg h]
    omega

theorem evictTable_age (now : ℤ) (t : List CacheRow) :
    ∀ e ∈ evictTable now t, now - CACHE_CLEANUP_DAYS ≤ e.lastAccessed := by
  intro e he
  have hs := evictTable_subset_survivors now t he
  have := (List.mem_filter.mp hs).2
  exact of_decide_eq_true this

theorem evictTable_over_capacity (now : ℤ) (t : List CacheRow)
    (h : CACHE_MAX_PROJECTS < (ageSurvivors now t).length) :
    (evictTable now t).length = CACHE_MAX_PROJECTS ∧
    ∀ e ∈ evictTable now t, ∀ x ∈ ageSurvivors now t,
      x ∉ evictTable now t → x.lastAccessed ≤ e.lastAccessed := by
  have hperm := (ageSurvivors now t).mergeSort_perm recencyGE
  have hev : evictTable now t =
      ((ageSurvivors now t).mergeSort recencyGE).take CACHE_MAX_PROJECTS := by
    unfold evictTable
    rw [if_pos h]
  constructor
  · rw [hev, List.length_take, hperm.length_eq]
    omega
  · intro e he x hx hxnot
    have hsorted : List.Pairwise (fun a b => recencyGE a b = true)
        ((ageSurvivors now t).mergeSort recencyGE) :=
      List.sorted_mergeSort
        (fun a b c hab hbc => by
          simp only [recencyGE, decide_eq_true_eq] at hab hbc ⊢
          omega)
        (fun a b => by
          simp only [recencyGE, Bool.or_eq_true, decide_eq_true_eq]
          omega)
        (ageSurvivors now t)
    have hsplit := List.take_append_drop CACHE_MAX_PROJECTS
      ((ageSurvivors now t).mergeSort recencyGE)
    rw [← hsplit] at hsorted
    have hxm : x ∈ ((ageSurvivors now t).mergeSort recencyGE) :=
      hperm.mem_iff.mpr hx
    rw [← hsplit] at hxm
    rcases List.mem_append.mp hxm with hxt | hxd
    · exact absurd (hev ▸ hxt) hxnot
    · have := (List.pairwise_append.mp hsorted).2.2 e (hev ▸ he) x hxd
      simpa [recencyGE] using this

/-- C5: after `cleanup_old_cache_entries` runs, each of the three tables
holds at most `CACHE_MAX_PROJECTS` (500) rows, every remaining row's
`last_accessed` is within the `CACHE_CLEANUP_DAYS` (30-day) retention
window, a table over capacity keeps exactly the `CACHE_MAX_PROJECTS` most
recently accessed survivors (every kept row is at least as recently
accessed as every dropped survivor), and the three tables are evicted
independently of one another. -/
theorem cleanup_eviction_invariants (now : ℤ) (db : CacheDB) :
    ((cleanup_old_cache_entries now db).locations =
        evictTable now db.locations ∧
     (cleanup_old_cache_entries now db).forms = evictTable now db.forms ∧
     (cleanup_old_cache_entries now db).relationships =
        evictTable now db.relationships) ∧
    (∀ t : List CacheRow,
      (evictTable now t).length ≤ CACHE_MAX_PROJECTS ∧
      (∀ e ∈ evictTable now t, now - CACHE_CLEANUP_DAYS ≤ e.lastAccessed) ∧
      evictTable now t ⊆ ageSurvivors now t ∧
      (CACHE_MAX_PROJECTS < (ageSurvivors now t).length →
        (evictTable now t).length = CACHE_MAX_PROJECTS ∧
        ∀ e ∈ evictTable now t, ∀ x ∈ ageSurvivors now t,
          x ∉ evictTable now t → x.lastAccessed ≤ e.lastAccessed)) :=
  ⟨⟨rfl, rfl, rfl⟩, fun t =>
    ⟨evictTable_length_le now t, evictTable_age now t,
     evictTable_subset_survivors now t, evictTable_over_capacity now t⟩⟩

/-- Witness for C5 at a concrete state: a row from one day ago survives, a
row from forty days ago is evicted. -/
theorem cleanup_eviction_invariants_witness :
    ∀ e ∈ evictTable 100 [⟨"p", "d", 99⟩, ⟨"q", "d", 60⟩],
      (100 : ℤ) - CACHE_CLEANUP_DAYS ≤ e.lastAccessed :=
  ((cleanup_eviction_invariants 100 ⟨[⟨"p", "d", 99⟩, ⟨"q", "d", 60⟩], [], []⟩).2
    [⟨"p", "d", 99⟩, ⟨"q", "d", 60⟩]).2.1

/-! ### Claim C6: project-identifier cache keys

Three distinct key derivations occur in the source:
`get_form_exporter_data` (app.py 3221) strips only the leading "b.";
`get_all_locations_for_project` (app.py 3958) and
`get_all_relationships_for_project` (app.py 4407) apply
`project_id.replace('b.', '')` — removing every occurrence — when the
identifier starts with "b."; `search_project_relationships` (app.py 3656)
applies the unconditional `replace`. -/

/-- Python `s.replace('b.', '')`: remove every non-overlapping occurrence of
"b.", scanning left to right. -/
def removeBDot : List Char → List Char
  | [] => []
  | [c] => [c]
  | c1 :: c2 :: rest =>
    if c1 = 'b' ∧ c2 = '.' then removeBDot rest
    else c1 :: removeBDot (c2 :: rest)

/-- `project_id.startswith('b.')`. -/
def startsWithBDot (p : String) : Bool :=
  match p.data with
  | c1 :: c2 :: _ => c1 == 'b' && c2 == '.'
  | _ => false

/-- The forms-cache key (app.py 3221): `project_id[2:]` when the identifier
starts with "b.". -/
def formsCacheKey (p : String) : String :=
  if startsWithBDot p then (⟨p.data.drop 2⟩ : String) else p

/-- The location-cache key (app.py 3958): `project_id.replace('b.', '')`
when the identifier starts with "b.". -/
def locationCacheKey (p : String) : String :=
  if startsWithBDot p then (⟨removeBDot p.data⟩ : String) else p

/-- The relationships-cache key (app.py 4407), identical to the location
derivation. -/
def relationshipsCacheKey (p : String) : String :=
  if startsWithBDot p then (⟨removeBDot p.data⟩ : String) else p

/-- The container id used by the relationship search (app.py 3656):
unconditional `replace('b.', '')`. -/
def searchContainerId (p : String) : String := (⟨removeBDot p.data⟩ : String)

/-- C6 counterexample: for the logical project identifier "ab.c" (which
itself contains the substring "b."), the spelling without the ACC prefix
and the spelling with it map to different location-cache keys ("ab.c"
versus "ac"), so the same logical project occupies two location-cache rows. -/
theorem cacheKey_counterexample :
    locationCacheKey "ab.c" = "ab.c" ∧
    locationCacheKey ("b." ++ "ab.c") = "ac" ∧
    locationCacheKey "ab.c" ≠ locationCacheKey ("b." ++ "ab.c") := by
  refine ⟨by decide, by decide, by decide⟩

/-- Whether a character list contains the substring "b.". -/
def hasBDot : List Char → Bool
  | [] => false
  | [_] => false
  | c1 :: c2 :: rest => (c1 == 'b' && c2 == '.') || hasBDot (c2 :: rest)

theorem removeBDot_eq_self : ∀ {l : List Char}, hasBDot l = false →
    removeBDot l = l := by
  intro l
  induction l using removeBDot.induct with
  | case1 => intro _; rfl
  | case2 c => intro _; rfl
  | case3 c1 c2 rest hbd ih =>
    intro h
    unfold hasBDot at h
    simp only [Bool.or_eq_false_iff, Bool.and_eq_false_iff] at h
    rcases h.1 with h1 | h1
    · rw [hbd.1] at h1
      simp at h1
    · rw [hbd.2] at h1
      simp at h1
  | case4 c1 c2 rest hbd ih =>
    intro h
    unfold hasBDot at h
    simp only [Bool.or_eq_false_iff] at h
    unfold removeBDot
    rw [if_neg hbd]
    rw [ih h.2]

theorem startsWithBDot_false_of_noBDot {p : String}
    (h : hasBDot p.data = false) : startsWithBDot p = false := by
  unfold startsWithBDot
  cases hd : p.data with
  | nil => rfl
  | cons c1 rest =>
    cases rest with
    | nil => rfl
    | cons c2 rest2 =>
      rw [hd] at h
      unfold hasBDot at h
      simp only [Bool.or_eq_false_iff] at h
      exact h.1

/-- C6 amended: for every bare project identifier containing no occurrence
of the substring "b.", the spelling with and the spelling without the ACC
"b." prefix map to the same key in every cache derivation (forms, location,
relationships, and the relationship-search container id); when the bare
identifier itself contains "b.", the location/relationships derivation can
split the two spellings across different keys (see the counterexample). -/
theorem cacheKey_amended (p : String) (h : hasBDot p.data = false) :
    formsCacheKey p = formsCacheKey ("b." ++ p) ∧
    locationCacheKey p = locationCacheKey ("b." ++ p) ∧
    relationshipsCacheKey p = relationshipsCacheKey ("b." ++ p) ∧
    searchContainerId p = searchContainerId ("b." ++ p) := by
  have hdata : ("b." ++ p).data = 'b' :: '.' :: p.data := by
    rw [String.data_append]
    rfl
  have hsw : startsWithBDot ("b." ++ p) = true := by
    unfold startsWithBDot
    rw [hdata]
    rfl
  have hswp : startsWithBDot p = false := startsWithBDot_false_of_noBDot h
  have hrm : removeBDot ('b' :: '.' :: p.data) = p.data := by
    have hstep : removeBDot ('b' :: '.' :: p.data) = removeBDot p.data := by
      show (if ('b' = 'b' ∧ '.' = '.') then removeBDot p.data
        else 'b' :: removeBDot ('.' :: p.data)) = removeBDot p.data
      rw [if_pos ⟨rfl, rfl⟩]
    rw [hstep, removeBDot_eq_self h]
  refine ⟨?_, ?_, ?_, ?_⟩
  · unfold formsCacheKey
    rw [hsw, hswp]
    simp only [if_true, Bool.false_eq_true, if_false]
    rw [hdata]
    rfl
  · unfold locationCacheKey
    rw [hsw, hswp]
    simp only [if_true, Bool.false_eq_true, if_false]
    rw [hdata, hrm]
  · unfold relationshipsCacheKey
    rw [hsw, hswp]
    simp only [if_true, Bool.false_eq_true, if_false]
    rw [hdata, hrm]
  · unfold searchContainerId
    rw [hdata, hrm, removeBDot_eq_self h]

/-- Witness for the amended C6 at a concrete dot-free identifier. -/
theorem cacheKey_amended_witness :
    locationCacheKey "1234" = locationCacheKey ("b." ++ "1234") :=
  (cacheKey_amended "1234" (by decide)).2.1

/-! ### Claim C8: cache round-trip (app.py 3960-3995, 4026-4043)

The cache stores `json.dumps(payload)` in a text column and returns
`json.loads` of it on a hit.  The serializer pair is modelled concretely: a
JSON value type, a printer following `json.dumps` defaults (separators
", " and ": ", `ensure_ascii` escaping with surrogate pairs), and a
recursive-descent parser; JSON numbers are modelled as integers. -/

inductive Json where
  | null
  | bool (v : Bool)
  | num (v : Int)
  | str (v : String)
  | arr (elems : List Json)
  | obj (members : List (String × Json))

/-- Hexadecimal digit character, lowercase as emitted by `json.dumps`. -/
def hexDigitChar (n : Nat) : Char :=
  if n < 10 then Char.ofNat (48 + n) else Char.ofNat (87 + n)

/-- Four-digit lowercase hex rendering of `n < 0x10000`. -/
def hex4 (n : Nat) : List Char :=
  [hexDigitChar (n / 4096 % 16), hexDigitChar (n / 256 % 16),
   hexDigitChar (n / 16 % 16), hexDigitChar (n % 16)]

/-- `json.dumps` character escaping with `ensure_ascii=True`: quote and
backslash escapes, the five short control escapes, printable ASCII verbatim,
`\uXXXX` otherwise, astral code points as surrogate pairs. -/
def escapeChar (c : Char) : List Char :=
  if c = '"' then ['\\', '"']
  else if c = '\\' then ['\\', '\\']
  else if c = '\x08' then ['\\', 'b']
  else if c = '\t' then ['\\', 't']
  else if c = '\n' then ['\\', 'n']
  else if c = '\x0c' then ['\\', 'f']
  else if c = '\r' then ['\\', 'r']
  else if 32 ≤ c.toNat ∧ c.toNat ≤ 126 then [c]
  else if c.toNat < 65536 then '\\' :: 'u' :: hex4 c.toNat
  else
    ('\\' :: 'u' :: hex4 (55296 + (c.toNat - 65536) / 1024)) ++
      ('\\' :: 'u' :: hex4 (56320 + (c.toNat - 65536) % 1024))

/-- A JSON string literal. -/
def printStr (s : String) : List Char :=
  '"' :: s.data.flatMap escapeChar ++ ['"']

/-- Decimal digits of a natural number. -/
def natDigits (n : Nat) : List Char :=
  if n < 10 then [Char.ofNat (48 + n)]
  else natDigits (n / 10) ++ [Char.ofNat (48 + n % 10)]
termination_by n
decreasing_by exact Nat.div_lt_self (by omega) (by omega)

/-- Integer rendering, `repr` of a Python int. -/
def intChars (i : Int) : List Char :=
  if i < 0 then '-' :: natDigits i.natAbs else natDigits i.natAbs

mutual

/-- `json.dumps` with default separators, over character lists. -/
def printJson : Json → List Char
  | .null => "null".data
  | .bool true => "true".data
  | .bool false => "false".data
  | .num i => intChars i
  | .str s => printStr s
  | .arr es => '[' :: (printElems es ++ [']'])
  | .obj ms => '\x7b' :: (printMembers ms ++ ['\x7d'])

/-- Array elements joined by ", ". -/
def printElems : List Json → List Char
  | [] => []
  | [e] => printJson e
  | e :: rest => printJson e ++ ',' :: ' ' :: printElems rest

/-- Object members `"key": value` joined by ", ". -/
def printMembers : List (String × Json) → List Char
  | [] => []
  | [(k, v)] => printStr k ++ ':' :: ' ' :: printJson v
  | (k, v) :: rest =>
    printStr k ++ ':' :: ' ' :: printJson v ++ ',' :: ' ' :: printMembers rest

end

mutual

/-- Fuel sufficient to parse a printed value. -/
def jfuel : Json → Nat
  | .arr es => 1 + elemsFuel es
  | .obj ms => 1 + membersFuel ms
  | _ => 1

/-- Fuel for an element list. -/
def elemsFuel : List Json → Nat
  | [] => 0
  | e :: tl => 1 + jfuel e + elemsFuel tl

/-- Fuel for a member list. -/
def membersFuel : List (String × Json) → Nat
  | [] => 0
  | (_, x) :: tl => 1 + jfuel x + membersFuel tl

end

/-- JSON insignificant whitespace. -/
def isWsChar (c : Char) : Bool :=
  c = ' ' || c = '\t' || c = '\n' || c = '\r'

/-- Skip insignificant whitespace. -/
def skipWs (l : List Char) : List Char := l.dropWhile isWsChar

/-- ASCII digit test. -/
def isDigitChar (c : Char) : Bool := 48 ≤ c.toNat && c.toNat ≤ 57

/-- Digit value. -/
def digitVal (c : Char) : Nat := c.toNat - 48

/-- Decimal value of a digit string. -/
def natFromDigits (ds : List Char) : Nat :=
  ds.foldl (fun acc c => acc * 10 + digitVal c) 0

/-- Hexadecimal digit value, both cases. -/
def hexVal (c : Char) : Option Nat :=
  if 48 ≤ c.toNat ∧ c.toNat ≤ 57 then some (c.toNat - 48)
  else if 97 ≤ c.toNat ∧ c.toNat ≤ 102 then some (c.toNat - 87)
  else if 65 ≤ c.toNat ∧ c.toNat ≤ 70 then some (c.toNat - 55)
  else none

/-- Value of a four-digit hex escape. -/
def hex4Val (a b c d : Char) : Option Nat := do
  let x1 ← hexVal a
  let x2 ← hexVal b
  let x3 ← hexVal c
  let x4 ← hexVal d
  pure (x1 * 4096 + x2 * 256 + x3 * 16 + x4)

/-- The single-character escapes accepted after a backslash. -/
def unescapeShort (e : Char) : Option Char :=
  if e = '"' then some '"'
  else if e = '\\' then some '\\'
  else if e = '/' then some '/'
  else if e = 'b' then some '\x08'
  else if e = 'f' then some '\x0c'
  else if e = 'n' then some '\n'
  else if e = 'r' then some '\r'
  else if e = 't' then some '\t'
  else none

/-- Decode one escape sequence after a backslash (non-recursive): the
single-character escapes, `\\uXXXX`, and surrogate pairs recombined; lone
surrogates are rejected (they cannot arise from the printer). -/
def unescapeStep (l : List Char) : Option (Char × List Char) :=
  match l with
  | [] => none
  | e :: rest2 =>
    if e = 'u' then
      match rest2 with
      | a :: b2 :: c2 :: d2 :: rest3 =>
        match hex4Val a b2 c2 d2 with
        | none => none
        | some n =>
          if 55296 ≤ n ∧ n ≤ 56319 then
            match rest3 with
            | e1 :: e2 :: a2 :: b3 :: c3 :: d3 :: rest4 =>
              if e1 = '\\' ∧ e2 = 'u' then
                match hex4Val a2 b3 c3 d3 with
                | none => none
                | some n2 =>
                  if 56320 ≤ n2 ∧ n2 ≤ 57343 then
                    some (Char.ofNat
                      (65536 + (n - 55296) * 1024 + (n2 - 56320)), rest4)
                  else none
              else none
            | _ => none
          else if 56320 ≤ n ∧ n ≤ 57343 then none
          else some (Char.ofNat n, rest3)
      | _ => none
    else
      match unescapeShort e with
      | none => none
      | some ch => some (ch, rest2)

/-- Parse the body of a string literal after the opening quote (fuel-indexed;
any fuel exceeding the content length suffices), returning the decoded
characters and the input after the closing quote. -/
def parseStrBody : Nat → List Char → Option (List Char × List Char)
  | 0, _ => none
  | _ + 1, [] => none
  | fuel + 1, c :: rest =>
    if c = '"' then some ([], rest)
    else if c = '\\' then
      match unescapeStep rest with
      | none => none
      | some (ch, rest2) =>
        match parseStrBody fuel rest2 with
        | some (cs, r) => some (ch :: cs, r)
        | none => none
    else if c.toNat < 32 then none
    else
      match parseStrBody fuel rest with
      | some (cs, r) => some (c :: cs, r)
      | none => none

/-- Expect a literal character sequence, returning the remainder. -/
def dropLit : List Char → List Char → Option (List Char)
  | [], l => some l
  | _ :: _, [] => none
  | c :: cs, x :: xs => if x = c then dropLit cs xs else none

mutual

/-- Fuel-indexed JSON value parser (models `json.loads` on the grammar
fragment the printer emits; numbers are digit strings with optional minus
sign). -/
def parseVal : Nat → List Char → Option (Json × List Char)
  | 0, _ => none
  | fuel + 1, l =>
    match skipWs l with
    | [] => none
    | c :: rest =>
      if c = 'n' then
        match dropLit ['u', 'l', 'l'] rest with
        | some r => some (.null, r)
        | none => none
      else if c = 't' then
        match dropLit ['r', 'u', 'e'] rest with
        | some r => some (.bool true, r)
        | none => none
      else if c = 'f' then
        match dropLit ['a', 'l', 's', 'e'] rest with
        | some r => some (.bool false, r)
        | none => none
      else if c = '"' then
        match parseStrBody (rest.length + 1) rest with
        | some (cs, r) => some (.str (⟨cs⟩ : String), r)
        | none => none
      else if c = '[' then
        let r1 := skipWs rest
        if r1.head? = some ']' then some (.arr [], r1.tail)
        else
          match parseElems fuel rest with
          | some (es, r) => some (.arr es, r)
          | none => none
      else if c = '\x7b' then
        let r1 := skipWs rest
        if r1.head? = some '\x7d' then some (.obj [], r1.tail)
        else
          match parseMembers fuel rest with
          | some (ms, r) => some (.obj ms, r)
          | none => none
      else if c = '-' then
        let sp := rest.span isDigitChar
        if sp.1.isEmpty then none
        else some (.num (-(natFromDigits sp.1 : Int)), sp.2)
      else if isDigitChar c then
        let sp := rest.span isDigitChar
        some (.num (natFromDigits (c :: sp.1) : Int), sp.2)
      else none

/-- Parse one or more array elements up to and including the closing
bracket. -/
def parseElems : Nat → List Char → Option (List Json × List Char)
  | 0, _ => none
  | fuel + 1, l =>
    match parseVal fuel l with
    | none => none
    | some (v, r1) =>
      let r2 := skipWs r1
      if r2.head? = some ']' then some ([v], r2.tail)
      else if r2.head? = some ',' then
        match parseElems fuel r2.tail with
        | none => none
        | some (vs, r3) => some (v :: vs, r3)
      else none

/-- Parse one or more object members up to and including the closing
brace. -/
def parseMembers : Nat → List Char → Option (List (String × Json) × List Char)
  | 0, _ => none
  | fuel + 1, l =>
    match skipWs l with
    | '"' :: r1 =>
      match parseStrBody (r1.length + 1) r1 with
      | none => none
      | some (kcs, r2) =>
        match skipWs r2 with
        | ':' :: r3 =>
          match parseVal fuel r3 with
          | none => none
          | some (v, r4) =>
            let r5 := skipWs r4
            if r5.head? = some '\x7d' then some ([((⟨kcs⟩ : String), v)], r5.tail)
            else if r5.head? = some ',' then
              match parseMembers fuel r5.tail with
              | none => none
              | some (ms, r6) => some (((⟨kcs⟩ : String), v) :: ms, r6)
            else none
        | _ => none
    | _ => none

end

/-! ### Round-trip lemmas: characters, digits, literals -/

theorem dropLit_append : ∀ (cs rest : List Char),
    dropLit cs (cs ++ rest) = some rest := by
  intro cs
  induction cs with
  | nil => intro rest; rfl
  | cons c cs ih =>
    intro rest
    show dropLit (c :: cs) (c :: (cs ++ rest)) = some rest
    unfold dropLit
    rw [if_pos rfl]
    exact ih rest

theorem toNat_ofNat_digit {k : Nat} (h : k < 10) :
    (Char.ofNat (48 + k)).toNat = 48 + k := by
  interval_cases k <;> decide

theorem isDigitChar_ofNat_digit {k : Nat} (h : k < 10) :
    isDigitChar (Char.ofNat (48 + k)) = true := by
  interval_cases k <;> decide

theorem hexVal_hexDigitChar {k : Nat} (h : k < 16) :
    hexVal (hexDigitChar k) = some k := by
  interval_cases k <;> decide

theorem hex4Val_hex4 {m : Nat} (h : m < 65536) :
    hex4Val (hexDigitChar (m / 4096 % 16)) (hexDigitChar (m / 256 % 16))
      (hexDigitChar (m / 16 % 16)) (hexDigitChar (m % 16)) = some m := by
  rw [hex4Val]
  rw [hexVal_hexDigitChar (Nat.mod_lt _ (by omega)),
      hexVal_hexDigitChar (Nat.mod_lt _ (by omega)),
      hexVal_hexDigitChar (Nat.mod_lt _ (by omega)),
      hexVal_hexDigitChar (Nat.mod_lt _ (by omega))]
  show some _ = some m
  congr 1
  omega

theorem natDigits_all_digits : ∀ n, ∀ c ∈ natDigits n, isDigitChar c = true := by
  intro n
  induction n using natDigits.induct with
  | case1 n h =>
    intro c hc
    rw [natDigits, if_pos h] at hc
    simp only [List.mem_singleton] at hc
    subst hc
    exact isDigitChar_ofNat_digit h
  | case2 n h ih =>
    intro c hc
    rw [natDigits, if_neg h] at hc
    rcases List.mem_append.mp hc with hc | hc
    · exact ih c hc
    · simp only [List.mem_singleton] at hc
      subst hc
      exact isDigitChar_ofNat_digit (Nat.mod_lt _ (by omega))

theorem natDigits_ne_nil (n : Nat) : natDigits n ≠ [] := by
  induction n using natDigits.induct with
  | case1 n h =>
    rw [natDigits, if_pos h]
    simp
  | case2 n h ih =>
    rw [natDigits, if_neg h]
    simp

theorem natFromDigits_append (ds : List Char) (d : Char) :
    natFromDigits (ds ++ [d]) = 10 * natFromDigits ds + digitVal d := by
  unfold natFromDigits
  rw [List.foldl_append]
  simp [Nat.mul_comm]

theorem natFromDigits_natDigits : ∀ n, natFromDigits (natDigits n) = n := by
  intro n
  induction n using natDigits.induct with
  | case1 n h =>
    rw [natDigits, if_pos h]
    show natFromDigits [Char.ofNat (48 + n)] = n
    unfold natFromDigits
    simp [digitVal, toNat_ofNat_digit h]
  | case2 n h ih =>
    rw [natDigits, if_neg h, natFromDigits_append, ih]
    unfold digitVal
    rw [toNat_ofNat_digit (Nat.mod_lt _ (by omega))]
    omega

/-- The next character cannot extend a number literal. -/
def numSafe : List Char → Prop
  | [] => True
  | c :: _ => isDigitChar c = false

theorem takeWhile_digits_append : ∀ (ds rest : List Char),
    (∀ c ∈ ds, isDigitChar c = true) → numSafe rest →
    (ds ++ rest).takeWhile isDigitChar = ds := by
  intro ds
  induction ds with
  | nil =>
    intro rest _ hrest
    cases rest with
    | nil => rfl
    | cons c t =>
      simp only [numSafe] at hrest
      simp [List.takeWhile_cons, hrest]
  | cons d ds ih =>
    intro rest hds hrest
    have hd : isDigitChar d = true := hds d (List.mem_cons_self d ds)
    rw [List.cons_append, List.takeWhile_cons, hd]
    simp only [if_true]
    rw [ih rest (fun c hc => hds c (List.mem_cons_of_mem d hc)) hrest]

theorem dropWhile_digits_append : ∀ (ds rest : List Char),
    (∀ c ∈ ds, isDigitChar c = true) → numSafe rest →
    (ds ++ rest).dropWhile isDigitChar = rest := by
  intro ds
  induction ds with
  | nil =>
    intro rest _ hrest
    cases rest with
    | nil => rfl
    | cons c t =>
      simp only [numSafe] at hrest
      simp [List.dropWhile_cons, hrest]
  | cons d ds ih =>
    intro rest hds hrest
    have hd : isDigitChar d = true := hds d (List.mem_cons_self d ds)
    rw [List.cons_append, List.dropWhile_cons, hd]
    simp only [if_true]
    exact ih rest (fun c hc => hds c (List.mem_cons_of_mem d hc)) hrest

theorem span_digits (ds rest : List Char)
    (hds : ∀ c ∈ ds, isDigitChar c = true) (hrest : numSafe rest) :
    (ds ++ rest).span isDigitChar = (ds, rest) := by
  rw [List.span_eq_take_drop, takeWhile_digits_append ds rest hds hrest,
    dropWhile_digits_append ds rest hds hrest]

theorem skipWs_not_ws {c : Char} (l : List Char) (h : isWsChar c = false) :
    skipWs (c :: l) = c :: l := by
  simp [skipWs, List.dropWhile_cons, h]

theorem skipWs_space (l : List Char) : skipWs (' ' :: l) = skipWs l := by
  simp [skipWs, List.dropWhile_cons, isWsChar]

theorem char_toNat_valid (c : Char) :
    c.toNat < 55296 ∨ (57343 < c.toNat ∧ c.toNat < 1114112) := c.valid

theorem unescapeStep_u {m : Nat} (hm : m < 65536)
    (hvalid : m < 55296 ∨ 57343 < m) (t : List Char) :
    unescapeStep ('u' :: (hex4 m ++ t)) = some (Char.ofNat m, t) := by
  show unescapeStep ('u' :: hexDigitChar (m / 4096 % 16) ::
    hexDigitChar (m / 256 % 16) :: hexDigitChar (m / 16 % 16) ::
    hexDigitChar (m % 16) :: t) = some (Char.ofNat m, t)
  simp only [unescapeStep]
  simp only [if_true]
  simp only [hex4Val_hex4 hm]
  rw [if_neg (by omega), if_neg (by omega)]

theorem unescapeStep_pair (hi lo : Nat) (hhiR : 55296 ≤ hi ∧ hi ≤ 56319)
    (hloR : 56320 ≤ lo ∧ lo ≤ 57343) (t : List Char) :
    unescapeStep ('u' :: (hex4 hi ++ ('\\' :: 'u' :: hex4 lo ++ t))) =
      some (Char.ofNat (65536 + (hi - 55296) * 1024 + (lo - 56320)), t) := by
  simp only [hex4, List.cons_append, List.nil_append]
  simp only [unescapeStep]
  simp only [if_true]
  simp only [hex4Val_hex4 (by omega : hi < 65536)]
  rw [if_pos hhiR]
  simp only [and_self, if_true]
  simp only [hex4Val_hex4 (by omega : lo < 65536)]
  rw [if_pos hloR]

theorem unescapeStep_surrogatePair {m : Nat} (hm : 65536 ≤ m)
    (hup : m < 1114112) (t : List Char) :
    unescapeStep ('u' :: (hex4 (55296 + (m - 65536) / 1024) ++
      ('\\' :: 'u' :: hex4 (56320 + (m - 65536) % 1024) ++ t))) =
      some (Char.ofNat m, t) := by
  rw [unescapeStep_pair (55296 + (m - 65536) / 1024) (56320 + (m - 65536) % 1024)
    ⟨by omega, by omega⟩ ⟨by omega, by omega⟩ t]
  exact congrArg (fun x => some (Char.ofNat x, t)) (by omega)

theorem parseStrBody_quote (f : Nat) (rest : List Char) :
    parseStrBody (f + 1) ('"' :: rest) = some ([], rest) := by
  simp only [parseStrBody, if_true]

theorem parseStrBody_backslash (f : Nat) (l : List Char) :
    parseStrBody (f + 1) ('\\' :: l) =
      (match unescapeStep l with
       | none => none
       | some (ch, rest2) =>
         match parseStrBody f rest2 with
         | some (cs, r) => some (ch :: cs, r)
         | none => none) := by
  simp only [parseStrBody]
  rw [if_neg (by decide), if_pos trivial]

theorem parseStrBody_plain (f : Nat) {c : Char} (h1 : c ≠ '"')
    (h2 : c ≠ '\\') (h3 : 32 ≤ c.toNat) (l : List Char) :
    parseStrBody (f + 1) (c :: l) =
      (match parseStrBody f l with
       | some (cs, r) => some (c :: cs, r)
       | none => none) := by
  simp only [parseStrBody]
  rw [if_neg h1, if_neg h2, if_neg (by omega)]

theorem parseStrBody_escape_one (f : Nat) (c : Char) (t : List Char) :
    parseStrBody (f + 1) (escapeChar c ++ t) =
      (match parseStrBody f t with
       | some (cs, r) => some (c :: cs, r)
       | none => none) := by
  by_cases h1 : c = '"'
  · subst h1
    rw [show escapeChar '"' = ['\\', '"'] from rfl]
    rw [List.cons_append, List.singleton_append, parseStrBody_backslash]
    simp only [show ∀ u : List Char, unescapeStep ('"' :: u) =
      some ('"', u) from fun _ => rfl]
  · by_cases h2 : c = '\\'
    · subst h2
      rw [show escapeChar '\\' = ['\\', '\\'] from rfl]
      rw [List.cons_append, List.singleton_append, parseStrBody_backslash]
      simp only [show ∀ u : List Char, unescapeStep ('\\' :: u) =
        some ('\\', u) from fun _ => rfl]
    · by_cases h3 : c = '\x08'
      · subst h3
        rw [show escapeChar '\x08' = ['\\', 'b'] from rfl]
        rw [List.cons_append, List.singleton_append, parseStrBody_backslash]
        simp only [show ∀ u : List Char, unescapeStep ('b' :: u) =
          some ('\x08', u) from fun _ => rfl]
      · by_cases h4 : c = '\t'
        · subst h4
          rw [show escapeChar '\t' = ['\\', 't'] from rfl]
          rw [List.cons_append, List.singleton_append, parseStrBody_backslash]
          simp only [show ∀ u : List Char, unescapeStep ('t' :: u) =
            some ('\t', u) from fun _ => rfl]
        · by_cases h5 : c = '\n'
          · subst h5
            rw [show escapeChar '\n' = ['\\', 'n'] from rfl]
            rw [List.cons_append, List.singleton_append, parseStrBody_backslash]
            simp only [show ∀ u : List Char, unescapeStep ('n' :: u) =
              some ('\n', u) from fun _ => rfl]
          · by_cases h6 : c = '\x0c'
            · subst h6
              rw [show escapeChar '\x0c' = ['\\', 'f'] from rfl]
              rw [List.cons_append, List.singleton_append,
                parseStrBody_backslash]
              simp only [show ∀ u : List Char, unescapeStep ('f' :: u) =
                some ('\x0c', u) from fun _ => rfl]
            · by_cases h7 : c = '\r'
              · subst h7
                rw [show escapeChar '\r' = ['\\', 'r'] from rfl]
                rw [List.cons_append, List.singleton_append,
                  parseStrBody_backslash]
                simp only [show ∀ u : List Char, unescapeStep ('r' :: u) =
                  some ('\r', u) from fun _ => rfl]
              · by_cases h8 : 32 ≤ c.toNat ∧ c.toNat ≤ 126
                · have he : escapeChar c = [c] := by
                    unfold escapeChar
                    rw [if_neg h1, if_neg h2, if_neg h3, if_neg h4, if_neg h5,
                      if_neg h6, if_neg h7, if_pos h8]
                  rw [he, List.singleton_append,
                    parseStrBody_plain f h1 h2 h8.1]
                · by_cases h9 : c.toNat < 65536
                  · have he : escapeChar c = '\\' :: 'u' :: hex4 c.toNat := by
                      unfold escapeChar
                      rw [if_neg h1, if_neg h2, if_neg h3, if_neg h4, if_neg h5,
                        if_neg h6, if_neg h7, if_neg h8, if_pos h9]
                    have hvalid : c.toNat < 55296 ∨ 57343 < c.toNat := by
                      rcases char_toNat_valid c with h | h
                      · exact Or.inl h
                      · exact Or.inr h.1
                    rw [he, List.cons_append, List.cons_append,
                      parseStrBody_backslash]
                    simp only [unescapeStep_u h9 hvalid, Char.ofNat_toNat]
                  · have he : escapeChar c =
                        ('\\' :: 'u' :: hex4 (55296 + (c.toNat - 65536) / 1024)) ++
                          ('\\' :: 'u' :: hex4 (56320 + (c.toNat - 65536) % 1024)) := by
                      unfold escapeChar
                      rw [if_neg h1, if_neg h2, if_neg h3, if_neg h4, if_neg h5,
                        if_neg h6, if_neg h7, if_neg h8, if_neg h9]
                    have hup : c.toNat < 1114112 := by
                      rcases char_toNat_valid c with h | h
                      · omega
                      · exact h.2
                    rw [he]
                    rw [show (('\\' :: 'u' :: hex4 (55296 + (c.toNat - 65536) / 1024)) ++
                      ('\\' :: 'u' :: hex4 (56320 + (c.toNat - 65536) % 1024))) ++ t =
                      '\\' :: ('u' :: (hex4 (55296 + (c.toNat - 65536) / 1024) ++
                        ('\\' :: 'u' :: hex4 (56320 + (c.toNat - 65536) % 1024) ++ t)))
                      from by simp [List.append_assoc]]
                    rw [parseStrBody_backslash]
                    simp only [unescapeStep_surrogatePair (by omega) hup,
                      Char.ofNat_toNat]

theorem parseStrBody_print : ∀ (s : List Char) (fuel : Nat) (rest : List Char),
    s.length < fuel →
    parseStrBody fuel (s.flatMap escapeChar ++ ('"' :: rest)) = some (s, rest) := by
  intro s
  induction s with
  | nil =>
    intro fuel rest hf
    cases fuel with
    | zero => omega
    | succ f => exact parseStrBody_quote f rest
  | cons c cs ih =>
    intro fuel rest hf
    cases fuel with
    | zero => omega
    | succ f =>
      have hf2 : cs.length < f := by
        simp only [List.length_cons] at hf
        omega
      simp only [List.flatMap_cons, List.append_assoc]
      rw [parseStrBody_escape_one f c]
      rw [ih f rest hf2]

theorem char_ne_of_toNat_ne {a b : Char} (h : a.toNat ≠ b.toNat) : a ≠ b :=
  fun he => h (he ▸ rfl)

theorem isDigitChar_toNat {d : Char} (h : isDigitChar d = true) :
    48 ≤ d.toNat ∧ d.toNat ≤ 57 := by
  simpa [isDigitChar, Bool.and_eq_true, decide_eq_true_eq] using h

theorem digit_head_facts {d : Char} (h : isDigitChar d = true) :
    isWsChar d = false ∧ d ≠ ']' ∧ d ≠ '\x7d' ∧ d ≠ 'n' ∧ d ≠ 't' ∧
    d ≠ 'f' ∧ d ≠ '"' ∧ d ≠ '[' ∧ d ≠ '\x7b' ∧ d ≠ '-' := by
  have ht := isDigitChar_toNat h
  have hne : ∀ x : Char, ¬(48 ≤ x.toNat ∧ x.toNat ≤ 57) → d ≠ x :=
    fun x hx he => hx (he ▸ ht)
  refine ⟨?_, hne ']' (by decide), hne '\x7d' (by decide),
    hne 'n' (by decide), hne 't' (by decide), hne 'f' (by decide),
    hne '"' (by decide), hne '[' (by decide), hne '\x7b' (by decide),
    hne '-' (by decide)⟩
  simp only [isWsChar, Bool.or_eq_false_iff, decide_eq_false_iff_not]
  exact ⟨⟨⟨hne ' ' (by decide), hne '\t' (by decide)⟩,
    hne '\n' (by decide)⟩, hne '\r' (by decide)⟩

/-! ### Dispatch lemmas for the value parser at each head character -/

theorem parseVal_lit_null (f : Nat) (rest : List Char) :
    parseVal (f + 1) ('n' :: 'u' :: 'l' :: 'l' :: rest) =
      some (.null, rest) := by
  simp only [parseVal]
  rw [skipWs_not_ws _ (by decide)]
  simp only [reduceIte]
  simp only [show dropLit ['u', 'l', 'l'] ('u' :: 'l' :: 'l' :: rest) =
    some rest from dropLit_append ['u', 'l', 'l'] rest]

theorem parseVal_lit_true (f : Nat) (rest : List Char) :
    parseVal (f + 1) ('t' :: 'r' :: 'u' :: 'e' :: rest) =
      some (.bool true, rest) := by
  simp only [parseVal]
  rw [skipWs_not_ws _ (by decide)]
  simp only [reduceIte]
  simp only [show dropLit ['r', 'u', 'e'] ('r' :: 'u' :: 'e' :: rest) =
    some rest from dropLit_append ['r', 'u', 'e'] rest]
  rw [if_neg (by decide)]

theorem parseVal_lit_false (f : Nat) (rest : List Char) :
    parseVal (f + 1) ('f' :: 'a' :: 'l' :: 's' :: 'e' :: rest) =
      some (.bool false, rest) := by
  simp only [parseVal]
  rw [skipWs_not_ws _ (by decide)]
  simp only [reduceIte]
  simp only [show dropLit ['a', 'l', 's', 'e'] ('a' :: 'l' :: 's' :: 'e' :: rest) =
    some rest from dropLit_append ['a', 'l', 's', 'e'] rest]
  rw [if_neg (by decide), if_neg (by decide)]

/-- The value parser on a non-whitespace head character, with the match on
the input unfolded. -/
theorem parseVal_cons (f : Nat) (c : Char) (l : List Char)
    (hws : isWsChar c = false) :
    parseVal (f + 1) (c :: l) =
      (if c = 'n' then
        match dropLit ['u', 'l', 'l'] l with
        | some r => some (.null, r)
        | none => none
      else if c = 't' then
        match dropLit ['r', 'u', 'e'] l with
        | some r => some (.bool true, r)
        | none => none
      else if c = 'f' then
        match dropLit ['a', 'l', 's', 'e'] l with
        | some r => some (.bool false, r)
        | none => none
      else if c = '"' then
        match parseStrBody (l.length + 1) l with
        | some (cs, r) => some (.str (⟨cs⟩ : String), r)
        | none => none
      else if c = '[' then
        if (skipWs l).head? = some ']' then some (.arr [], (skipWs l).tail)
        else
          match parseElems f l with
          | some (es, r) => some (.arr es, r)
          | none => none
      else if c = '\x7b' then
        if (skipWs l).head? = some '\x7d' then some (.obj [], (skipWs l).tail)
        else
          match parseMembers f l with
          | some (ms, r) => some (.obj ms, r)
          | none => none
      else if c = '-' then
        if (l.span isDigitChar).1.isEmpty then none
        else some (.num (-(natFromDigits (l.span isDigitChar).1 : Int)),
          (l.span isDigitChar).2)
      else if isDigitChar c then
        some (.num (natFromDigits (c :: (l.span isDigitChar).1) : Int),
          (l.span isDigitChar).2)
      else none) := by
  simp only [parseVal]
  rw [skipWs_not_ws l hws]

theorem natDigits_cons (n : Nat) : ∃ d ds, natDigits n = d :: ds ∧
    isDigitChar d = true ∧ ∀ c ∈ ds, isDigitChar c = true := by
  cases hc : natDigits n with
  | nil => exact absurd hc (natDigits_ne_nil n)
  | cons d ds =>
    refine ⟨d, ds, rfl, ?_, ?_⟩
    · exact natDigits_all_digits n d (hc ▸ List.mem_cons_self d ds)
    · intro c hcm
      exact natDigits_all_digits n c (hc ▸ List.mem_cons_of_mem d hcm)

theorem parseVal_print_num (f : Nat) (i : Int) (rest : List Char)
    (hrest : numSafe rest) :
    parseVal (f + 1) (intChars i ++ rest) = some (.num i, rest) := by
  obtain ⟨d, ds, hnd, hd, hds⟩ := natDigits_cons i.natAbs
  by_cases hi : i < 0
  · rw [show intChars i = '-' :: natDigits i.natAbs from by
      unfold intChars; rw [if_pos hi]]
    rw [List.cons_append, parseVal_cons f '-' _ (by decide)]
    rw [if_neg (by decide), if_neg (by decide), if_neg (by decide),
      if_neg (by decide), if_neg (by decide), if_neg (by decide), if_pos rfl]
    rw [span_digits (natDigits i.natAbs) rest (natDigits_all_digits _) hrest]
    rw [if_neg (by rw [hnd]; simp [List.isEmpty])]
    have hv : -((natFromDigits (natDigits i.natAbs) : Nat) : Int) = i := by
      rw [natFromDigits_natDigits]
      omega
    rw [hv]
  · rw [show intChars i = natDigits i.natAbs from by
      unfold intChars; rw [if_neg hi]]
    rw [hnd, List.cons_append]
    obtain ⟨hws, hrb, hcb, hn, ht, hf2, hq, hlb, hob, hmin⟩ := digit_head_facts hd
    rw [parseVal_cons f d _ hws]
    rw [if_neg hn, if_neg ht, if_neg hf2, if_neg hq, if_neg hlb, if_neg hob,
      if_neg hmin, if_pos hd]
    rw [span_digits ds rest hds hrest]
    have hv : ((natFromDigits (d :: ds) : Nat) : Int) = i := by
      rw [← hnd, natFromDigits_natDigits]
      omega
    rw [show ((ds, rest) : List Char × List Char).1 = ds from rfl,
      show ((ds, rest) : List Char × List Char).2 = rest from rfl, hv]

theorem escapeChar_length_pos (c : Char) : 1 ≤ (escapeChar c).length := by
  unfold escapeChar
  split_ifs <;> simp [hex4]

theorem length_le_flatMap_escapeChar : ∀ l : List Char,
    l.length ≤ (l.flatMap escapeChar).length := by
  intro l
  induction l with
  | nil => simp
  | cons c cs ih =>
    rw [List.flatMap_cons, List.length_append, List.length_cons]
    have := escapeChar_length_pos c
    omega

theorem parseVal_print_str (f : Nat) (s : String) (rest : List Char) :
    parseVal (f + 1) (printStr s ++ rest) = some (.str s, rest) := by
  rw [show printStr s ++ rest =
    '"' :: (s.data.flatMap escapeChar ++ ('"' :: rest)) from by
      simp [printStr, List.append_assoc]]
  rw [parseVal_cons f '"' _ (by decide)]
  rw [if_neg (by decide), if_neg (by decide), if_neg (by decide), if_pos rfl]
  rw [parseStrBody_print s.data _ rest (by
    have h1 := length_le_flatMap_escapeChar s.data
    simp only [List.length_append, List.length_cons]
    omega)]

theorem printJson_head_facts (v : Json) : ∃ c cs, printJson v = c :: cs ∧
    isWsChar c = false ∧ c ≠ ']' ∧ c ≠ '\x7d' := by
  have hfixed : ∀ c : Char, c ∈ ['n', 't', 'f', '"', '[', '\x7b', '-'] →
      isWsChar c = false ∧ c ≠ ']' ∧ c ≠ '\x7d' := by decide
  cases v with
  | null => exact ⟨'n', _, rfl, hfixed 'n' (by decide)⟩
  | bool b =>
    cases b with
    | true => exact ⟨'t', _, rfl, hfixed 't' (by decide)⟩
    | false => exact ⟨'f', _, rfl, hfixed 'f' (by decide)⟩
  | num i =>
    by_cases hi : i < 0
    · refine ⟨'-', natDigits i.natAbs, ?_, hfixed '-' (by decide)⟩
      show intChars i = _
      unfold intChars
      rw [if_pos hi]
    · obtain ⟨d, ds, hnd, hd, _⟩ := natDigits_cons i.natAbs
      obtain ⟨hws, hrb, hcb, _⟩ := digit_head_facts hd
      refine ⟨d, ds, ?_, hws, hrb, hcb⟩
      show intChars i = _
      unfold intChars
      rw [if_neg hi, hnd]
  | str s => exact ⟨'"', _, rfl, hfixed '"' (by decide)⟩
  | arr es => exact ⟨'[', _, rfl, hfixed '[' (by decide)⟩
  | obj ms => exact ⟨'\x7b', _, rfl, hfixed '\x7b' (by decide)⟩

theorem jfuel_pos (v : Json) : 1 ≤ jfuel v := by
  cases v <;> simp [jfuel]

theorem parseVal_space (f : Nat) (l : List Char) :
    parseVal f (' ' :: l) = parseVal f l := by
  cases f with
  | zero => rfl
  | succ f2 => simp only [parseVal, skipWs_space]

theorem parseElems_space (f : Nat) (l : List Char) :
    parseElems f (' ' :: l) = parseElems f l := by
  cases f with
  | zero => rfl
  | succ f2 => simp only [parseElems, parseVal_space]

theorem parseMembers_space (f : Nat) (l : List Char) :
    parseMembers f (' ' :: l) = parseMembers f l := by
  cases f with
  | zero => rfl
  | succ f2 => simp only [parseMembers, skipWs_space]

theorem printElems_pair (e e2 : Json) (es : List Json) :
    printElems (e :: e2 :: es) = printJson e ++ ',' :: ' ' :: printElems (e2 :: es) := by
  rfl

theorem printMembers_pair (k : String) (v : Json) (k2 : String) (v2 : Json)
    (ms : List (String × Json)) :
    printMembers ((k, v) :: (k2, v2) :: ms) =
      printStr k ++ ':' :: ' ' :: printJson v ++
        ',' :: ' ' :: printMembers ((k2, v2) :: ms) := by
  rfl

theorem printMembers_head (k : String) (v : Json) (ms : List (String × Json)) :
    ∃ t, printMembers ((k, v) :: ms) = '"' :: t := by
  cases ms with
  | nil => exact ⟨_, rfl⟩
  | cons m ms2 => exact ⟨_, rfl⟩

/-- Printed output parses back, given enough fuel: main induction. -/
theorem parse_print_fuel : ∀ fuel : Nat,
    (∀ (v : Json) (rest : List Char), jfuel v ≤ fuel → numSafe rest →
       parseVal fuel (printJson v ++ rest) = some (v, rest)) ∧
    (∀ (e : Json) (es : List Json) (rest : List Char),
       elemsFuel (e :: es) ≤ fuel →
       parseElems fuel (printElems (e :: es) ++ (']' :: rest)) =
         some (e :: es, rest)) ∧
    (∀ (k : String) (v : Json) (ms : List (String × Json)) (rest : List Char),
       membersFuel ((k, v) :: ms) ≤ fuel →
       parseMembers fuel (printMembers ((k, v) :: ms) ++ ('\x7d' :: rest)) =
         some ((k, v) :: ms, rest)) := by
  intro fuel
  induction fuel with
  | zero =>
    refine ⟨?_, ?_, ?_⟩
    · intro v rest hf _
      have := jfuel_pos v
      omega
    · intro e es rest hf
      simp only [elemsFuel] at hf
      omega
    · intro k v ms rest hf
      simp only [membersFuel] at hf
      omega
  | succ f IH =>
    refine ⟨?_, ?_, ?_⟩
    · intro v rest hfv hrest
      cases v with
      | null =>
        rw [show printJson .null ++ rest = 'n' :: 'u' :: 'l' :: 'l' :: rest from rfl]
        exact parseVal_lit_null f rest
      | bool b =>
        cases b with
        | true =>
          rw [show printJson (.bool true) ++ rest =
            't' :: 'r' :: 'u' :: 'e' :: rest from rfl]
          exact parseVal_lit_true f rest
        | false =>
          rw [show printJson (.bool false) ++ rest =
            'f' :: 'a' :: 'l' :: 's' :: 'e' :: rest from rfl]
          exact parseVal_lit_false f rest
      | num i =>
        rw [show printJson (.num i) = intChars i from rfl]
        exact parseVal_print_num f i rest hrest
      | str s =>
        rw [show printJson (.str s) = printStr s from rfl]
        exact parseVal_print_str f s rest
      | arr es =>
        rw [show printJson (.arr es) ++ rest =
          '[' :: (printElems es ++ (']' :: rest)) from by
            rw [show printJson (.arr es) = '[' :: (printElems es ++ [']']) from rfl]
            simp [List.append_assoc]]
        rw [parseVal_cons f '[' _ (by decide)]
        rw [if_neg (by decide), if_neg (by decide), if_neg (by decide),
          if_neg (by decide), if_pos rfl]
        cases es with
        | nil =>
          rw [show printElems ([] : List Json) ++ (']' :: rest) = ']' :: rest from rfl]
          rw [skipWs_not_ws rest (by decide)]
          rw [if_pos (show (']' :: rest).head? = some ']' from rfl)]
          rfl
        | cons e es2 =>
          have hb : elemsFuel (e :: es2) ≤ f := by
            simp only [jfuel] at hfv
            omega
          obtain ⟨c0, cs0, hpr, hws0, hrb0, _⟩ := printJson_head_facts e
          have hpe : ∃ t, printElems (e :: es2) ++ (']' :: rest) =
              printJson e ++ t := by
            cases es2 with
            | nil => exact ⟨']' :: rest, rfl⟩
            | cons e2 es3 =>
              exact ⟨',' :: ' ' :: (printElems (e2 :: es3) ++ (']' :: rest)), by
                simp only [printElems_pair, List.append_assoc, List.cons_append]⟩
          obtain ⟨t, ht⟩ := hpe
          have hcond : (skipWs (printElems (e :: es2) ++
              (']' :: rest))).head? ≠ some ']' := by
            rw [ht, hpr, List.cons_append, skipWs_not_ws _ hws0]
            simp [hrb0]
          rw [if_neg hcond]
          rw [IH.2.1 e es2 rest hb]
      | obj ms =>
        rw [show printJson (.obj ms) ++ rest =
          '\x7b' :: (printMembers ms ++ ('\x7d' :: rest)) from by
            rw [show printJson (.obj ms) =
              '\x7b' :: (printMembers ms ++ ['\x7d']) from rfl]
            simp [List.append_assoc]]
        rw [parseVal_cons f '\x7b' _ (by decide)]
        rw [if_neg (by decide), if_neg (by decide), if_neg (by decide),
          if_neg (by decide), if_neg (by decide), if_pos rfl]
        cases ms with
        | nil =>
          rw [show printMembers ([] : List (String × Json)) ++ ('\x7d' :: rest) =
            '\x7d' :: rest from rfl]
          rw [skipWs_not_ws rest (by decide)]
          rw [if_pos (show ('\x7d' :: rest).head? = some '\x7d' from rfl)]
          rfl
        | cons m ms2 =>
          obtain ⟨k2, v2⟩ := m
          have hb : membersFuel ((k2, v2) :: ms2) ≤ f := by
            simp only [jfuel] at hfv
            omega
          obtain ⟨t, ht⟩ := printMembers_head k2 v2 ms2
          have hcond : (skipWs (printMembers ((k2, v2) :: ms2) ++
              ('\x7d' :: rest))).head? ≠ some '\x7d' := by
            rw [ht, List.cons_append,
              skipWs_not_ws _ (by decide : isWsChar '"' = false)]
            intro hcontra
            simp only [List.head?_cons, Option.some.injEq] at hcontra
            exact absurd hcontra (by decide)
          rw [if_neg hcond]
          rw [IH.2.2 k2 v2 ms2 rest hb]
    · intro e es rest hfe
      have hje : jfuel e ≤ f := by
        simp only [elemsFuel] at hfe
        omega
      cases es with
      | nil =>
        have hns : numSafe (']' :: rest) := by
          show isDigitChar ']' = false
          decide
        have h1 : parseVal f (printElems [e] ++ (']' :: rest)) =
            some (e, ']' :: rest) := by
          rw [show printElems [e] ++ (']' :: rest) =
            printJson e ++ (']' :: rest) from rfl]
          exact IH.1 e (']' :: rest) hje hns
        simp only [parseElems, h1]
        rw [skipWs_not_ws rest (by decide)]
        rw [if_pos (show (']' :: rest).head? = some ']' from rfl)]
        rfl
      | cons e2 es3 =>
        have hfe2 : elemsFuel (e2 :: es3) ≤ f := by
          simp only [elemsFuel] at hfe ⊢
          omega
        have hns : numSafe (',' :: ' ' :: (printElems (e2 :: es3) ++ (']' :: rest))) := by
          show isDigitChar ',' = false
          decide
        have h1 : parseVal f (printElems (e :: e2 :: es3) ++ (']' :: rest)) =
            some (e, ',' :: ' ' :: (printElems (e2 :: es3) ++ (']' :: rest))) := by
          rw [printElems_pair, List.append_assoc]
          exact IH.1 e (',' :: ' ' :: (printElems (e2 :: es3) ++ (']' :: rest))) hje hns
        have hrec : parseElems f (printElems (e2 :: es3) ++ (']' :: rest)) =
            some (e2 :: es3, rest) := IH.2.1 e2 es3 rest hfe2
        simp only [parseElems, h1,
          skipWs_not_ws _ (by decide : isWsChar ',' = false),
          List.head?_cons, List.tail_cons, Option.some.injEq, reduceIte,
          parseElems_space, hrec]
        rw [if_neg (by decide)]
    · intro k v ms rest hfm
      have hjv : jfuel v ≤ f := by
        simp only [membersFuel] at hfm
        omega
      cases ms with
      | nil =>
        have hshape : printMembers ((k, v) :: []) ++ ('\x7d' :: rest) =
            '"' :: (k.data.flatMap escapeChar ++
              ('"' :: (':' :: ' ' :: (printJson v ++ ('\x7d' :: rest))))) := by
          show (printStr k ++ ':' :: ' ' :: printJson v) ++ ('\x7d' :: rest) = _
          simp only [printStr, List.cons_append, List.nil_append, List.append_assoc]
        have hstr : parseStrBody ((k.data.flatMap escapeChar ++
            ('"' :: (':' :: ' ' :: (printJson v ++ ('\x7d' :: rest))))).length + 1)
            (k.data.flatMap escapeChar ++
              ('"' :: (':' :: ' ' :: (printJson v ++ ('\x7d' :: rest))))) =
            some (k.data, ':' :: ' ' :: (printJson v ++ ('\x7d' :: rest))) := by
          apply parseStrBody_print
          have := length_le_flatMap_escapeChar k.data
          simp only [List.length_append, List.length_cons]
          omega
        have hv1 : parseVal f (printJson v ++ ('\x7d' :: rest)) =
            some (v, '\x7d' :: rest) :=
          IH.1 v _ hjv (by show isDigitChar '\x7d' = false; decide)
        rw [hshape]
        simp only [parseMembers,
          skipWs_not_ws _ (by decide : isWsChar '"' = false), hstr,
          skipWs_not_ws _ (by decide : isWsChar ':' = false), parseVal_space, hv1,
          skipWs_not_ws _ (by decide : isWsChar '\x7d' = false),
          List.head?_cons, List.tail_cons, Option.some.injEq, reduceIte]
      | cons m ms2 =>
        obtain ⟨k2, v2⟩ := m
        have hfm2 : membersFuel ((k2, v2) :: ms2) ≤ f := by
          simp only [membersFuel] at hfm ⊢
          omega
        have hshape : printMembers ((k, v) :: (k2, v2) :: ms2) ++ ('\x7d' :: rest) =
            '"' :: (k.data.flatMap escapeChar ++ ('"' :: (':' :: ' ' ::
              (printJson v ++ (',' :: ' ' ::
                (printMembers ((k2, v2) :: ms2) ++ ('\x7d' :: rest))))))) := by
          rw [printMembers_pair]
          simp only [printStr, List.cons_append, List.nil_append, List.append_assoc]
        have hstr : parseStrBody ((k.data.flatMap escapeChar ++ ('"' :: (':' :: ' ' ::
            (printJson v ++ (',' :: ' ' ::
              (printMembers ((k2, v2) :: ms2) ++ ('\x7d' :: rest))))))).length + 1)
            (k.data.flatMap escapeChar ++ ('"' :: (':' :: ' ' ::
              (printJson v ++ (',' :: ' ' ::
                (printMembers ((k2, v2) :: ms2) ++ ('\x7d' :: rest))))))) =
            some (k.data, ':' :: ' ' :: (printJson v ++ (',' :: ' ' ::
              (printMembers ((k2, v2) :: ms2) ++ ('\x7d' :: rest))))) := by
          apply parseStrBody_print
          have := length_le_flatMap_escapeChar k.data
          simp only [List.length_append, List.length_cons]
          omega
        have hv1 : parseVal f (printJson v ++ (',' :: ' ' ::
            (printMembers ((k2, v2) :: ms2) ++ ('\x7d' :: rest)))) =
            some (v, ',' :: ' ' ::
              (printMembers ((k2, v2) :: ms2) ++ ('\x7d' :: rest))) :=
          IH.1 v _ hjv (by show isDigitChar ',' = false; decide)
        have hrec : parseMembers f (printMembers ((k2, v2) :: ms2) ++
            ('\x7d' :: rest)) = some ((k2, v2) :: ms2, rest) :=
          IH.2.2 k2 v2 ms2 rest hfm2
        rw [hshape]
        simp only [parseMembers,
          skipWs_not_ws _ (by decide : isWsChar '"' = false), hstr,
          skipWs_not_ws _ (by decide : isWsChar ':' = false), parseVal_space, hv1,
          skipWs_not_ws _ (by decide : isWsChar ',' = false),
          List.head?_cons, List.tail_cons, Option.some.injEq, reduceIte,
          parseMembers_space, hrec]
        rw [if_neg (by decide)]

mutual

theorem jfuel_le_print : ∀ v : Json, jfuel v ≤ (printJson v).length
  | .null => by decide
  | .bool true => by decide
  | .bool false => by decide
  | .num i => by
    simp only [jfuel, printJson]
    have h2 : 1 ≤ (natDigits i.natAbs).length := by
      cases hd : natDigits i.natAbs with
      | nil => exact absurd hd (natDigits_ne_nil _)
      | cons d ds => simp
    unfold intChars
    split
    · simp only [List.length_cons]
      omega
    · exact h2
  | .str s => by
    simp only [jfuel, printJson, printStr, List.cons_append, List.length_cons]
    omega
  | .arr es => by
    have h := elemsFuel_le_print es
    simp only [jfuel, printJson, List.length_cons, List.length_append,
      List.length_singleton]
    omega
  | .obj ms => by
    have h := membersFuel_le_print ms
    simp only [jfuel, printJson, List.length_cons, List.length_append,
      List.length_singleton]
    omega

theorem elemsFuel_le_print : ∀ es : List Json,
    elemsFuel es ≤ (printElems es).length + 1
  | [] => by simp [elemsFuel, printElems]
  | [e] => by
    have h := jfuel_le_print e
    simp only [elemsFuel]
    rw [show printElems [e] = printJson e from rfl]
    omega
  | e :: e2 :: es3 => by
    have h1 := jfuel_le_print e
    have h2 := elemsFuel_le_print (e2 :: es3)
    simp only [elemsFuel] at h2 ⊢
    rw [printElems_pair]
    simp only [List.length_append, List.length_cons]
    omega

theorem membersFuel_le_print : ∀ ms : List (String × Json),
    membersFuel ms ≤ (printMembers ms).length + 1
  | [] => by simp [membersFuel, printMembers]
  | [(k, v)] => by
    have h := jfuel_le_print v
    simp only [membersFuel]
    rw [show printMembers [(k, v)] = printStr k ++ ':' :: ' ' :: printJson v from rfl]
    simp only [List.length_append, List.length_cons]
    omega
  | (k, v) :: (k2, v2) :: ms2 => by
    have h1 := jfuel_le_print v
    have h2 := membersFuel_le_print ((k2, v2) :: ms2)
    simp only [membersFuel] at h2 ⊢
    rw [printMembers_pair]
    simp only [List.length_append, List.length_cons]
    omega

end

/-- `json.dumps` with default arguments, as a Lean function. -/
def dumps (v : Json) : String := (⟨printJson v⟩ : String)

/-- `json.loads`: parse a value, reject trailing non-whitespace. -/
def loads (s : String) : Option Json :=
  match parseVal (s.data.length + 1) s.data with
  | some (v, r) => if skipWs r = [] then some v else none
  | none => none

/-- The serializer/parser pair is the identity on every JSON value. -/
theorem loads_dumps (v : Json) : loads (dumps v) = some v := by
  have hb : jfuel v ≤ (printJson v).length + 1 :=
    le_trans (jfuel_le_print v) (Nat.le_succ _)
  have hparse := (parse_print_fuel ((printJson v).length + 1)).1 v [] hb trivial
  rw [List.append_nil] at hparse
  unfold loads dumps
  simp only [hparse, skipWs, List.dropWhile_nil, reduceIte]

/-! ### C8: cache put/get round trip -/

/-- The `INSERT OR REPLACE INTO location_cache` write (app.py 4026-4043):
keyed by the cleaned project id, payload column set to `json.dumps(payload)`,
`last_accessed` refreshed. -/
def cachePut (t : List CacheRow) (project_id : String) (payload : Json)
    (now : ℤ) : List CacheRow :=
  t.filter (fun r => r.pid != locationCacheKey project_id) ++
    [{ pid := locationCacheKey project_id, data := dumps payload,
       lastAccessed := now }]

/-- The `SELECT location_data FROM location_cache WHERE project_id = ?` read
followed by `json.loads` (app.py 3966-3989). -/
def cacheGet (t : List CacheRow) (project_id : String) : Option Json :=
  match t.find? (fun r => r.pid == locationCacheKey project_id) with
  | some r => loads r.data
  | none => none

/-- C8: for every project identifier and every payload stored through the
cache's put path (`INSERT OR REPLACE` of `json.dumps(payload)` keyed by the
cleaned project id), an immediately following get for the same identifier
(`SELECT` + `json.loads`) returns a value structurally equal to the stored
payload: the serialize-on-write / deserialize-on-read pair is the identity. -/
theorem cache_put_get_roundtrip (t : List CacheRow) (p : String) (payload : Json)
    (now : ℤ) : cacheGet (cachePut t p payload now) p = some payload := by
  unfold cacheGet cachePut
  rw [List.find?_append]
  have hnone : (t.filter (fun r => r.pid != locationCacheKey p)).find?
      (fun r => r.pid == locationCacheKey p) = none := by
    rw [List.find?_eq_none]
    intro r hr
    have hmem := List.of_mem_filter hr
    simp only [bne_iff_ne, ne_eq] at hmem
    simp only [beq_iff_eq]
    exact hmem
  rw [hnone, Option.none_or]
  have hfind : ([{ pid := locationCacheKey p, data := dumps payload,
                   lastAccessed := now }] : List CacheRow).find?
      (fun r => r.pid == locationCacheKey p) =
      some { pid := locationCacheKey p, data := dumps payload,
             lastAccessed := now } := by
    simp [List.find?]
  rw [hfind]
  exact loads_dumps payload

/-! ### C7: error isolation in relationship discovery (app.py 948-1004,
1105-1194, 1196-1240, 3309-3402, 3650-3685) -/

/-- Outcome of one HTTP call: 2xx with parsed body (`response.ok` true),
non-2xx status (`response.ok` false), or a raised exception. -/
inductive NetResult (α : Type) where
  | ok (val : α)
  | httpErr
  | exc
  deriving Repr, DecidableEq

/-- One entity of a relationship record; `eid` models `entity.get('id')`,
which is absent when the payload record carries no `id` key. -/
structure Entity where
  etype : Option String := none
  eid : Option String := none
  deriving Repr, DecidableEq

/-- One relationship record returned by the relationship search. -/
structure Relationship where
  rid : Option String := none
  entities : List Entity := []
  deriving Repr, DecidableEq

/-- An Assets-v2 record, with the fields `get_asset_details` reads. -/
structure AssetV2 where
  id : Option String := none
  clientAssetId : Option String := none
  description : Option String := none
  locationId : Option String := none
  barcode : Option String := none
  categoryId : Option String := none
  statusId : Option String := none
  isActive : Option Bool := none
  deriving Repr, DecidableEq

/-- The dictionary `get_asset_details` returns on success (app.py
1135-1144). -/
structure AssetDetails where
  name : String
  description : String
  clientAssetId : String
  locationId : String
  barcode : String
  categoryId : String
  statusId : String
  isActive : Bool
  deriving Repr, DecidableEq

/-- A form as consumed by the batch loop of `get_form_exporter_data`. -/
structure BatchForm where
  fid : Option String := none
  name : Option String := none
  formDate : Option String := none
  createdAt : Option String := none
  relationship_id : Option String := none
  deriving Repr, DecidableEq

/-- One related-asset dictionary built by the batch loop (app.py
3371-3381). -/
structure RelAsset where
  id : String
  name : String
  description : String
  clientAssetId : String
  locationId : String
  locationName : String
  barcode : String
  atype : String
  relationship_id : Option String
  deriving Repr, DecidableEq

/-- One output record of the batch loop (app.py 3394-3401). -/
structure OutForm where
  form_id : Option String
  form_name : String
  form_date : String
  form_created : String
  relationship_id : Option String
  related_assets : List RelAsset
  deriving Repr, DecidableEq

/-- The network as seen by one export request: the outcome of every HTTP
call the relationship-discovery code can make. `formReferences` abstracts
`get_form_references` (app.py 2292-2545), whose whole body sits in a
`try/except` returning a list in every case, so its failures surface only
as `[]`. `assetsV2` and `assetsV2Retry` are indexed by the queried asset id
because these per-asset lookups are separate requests that can fail
independently; `assetsV1Fallback` is the re-fetch performed inside
`search_assets_by_form_content`. -/
structure Env where
  assetsV1 : NetResult (List Asset) := .httpErr
  assetsV1Fallback : NetResult (List Asset) := .httpErr
  formReferences : List RefEntry := []
  relSearch : NetResult (List Relationship) := .httpErr
  assetsV2 : String → NetResult (List AssetV2) := fun _ => .httpErr
  assetsV2Retry : String → NetResult (List AssetV2) := fun _ => .httpErr
  locLookup : List (String × String) := []

/-- `search_project_relationships` (app.py 3650-3685): on success the
`relationships` list, on a non-2xx response or an exception `[]`. -/
def search_project_relationships (env : Env) : List Relationship :=
  match env.relSearch with
  | .ok rels => rels
  | .httpErr => []
  | .exc => []

/-- The success dictionary of `get_asset_details` (app.py 1120-1144):
`clientAssetId` primary name with description fallback, `'N/A'` defaults
for location and barcode. -/
def mkAssetDetails (a : AssetV2) : AssetDetails :=
  let client := a.clientAssetId.getD "Unknown Asset"
  { name := if client != "Unknown Asset" then client else a.description.getD "",
    description := a.description.getD "",
    clientAssetId := client,
    locationId := a.locationId.getD "N/A",
    barcode := a.barcode.getD "N/A",
    categoryId := a.categoryId.getD "",
    statusId := a.statusId.getD "",
    isActive := a.isActive.getD true }

/-- The `for asset in assets: if asset.get('id') == asset_id` scan. -/
def findAssetById (assets : List AssetV2) (aid : String) : Option AssetV2 :=
  assets.find? (fun a => a.id == some aid)

/-- `get_asset_details` (app.py 1105-1194): v2 list fetch, retry with the
`b.` prefix only after a non-2xx first response, `None` on any failure or
when the asset id is absent from the listing. -/
def get_asset_details (env : Env) (aid : String) : Option AssetDetails :=
  match env.assetsV2 aid with
  | .ok assets => (findAssetById assets aid).map mkAssetDetails
  | .httpErr =>
    match env.assetsV2Retry aid with
    | .ok assets => (findAssetById assets aid).map mkAssetDetails
    | .httpErr => none
    | .exc => none
  | .exc => none

/-- `search_assets_by_form_content` (app.py 1196-1240): lowercased text
from the custom values only, name-only matching, `[]` on any failure. -/
def search_assets_by_form_content (env : Env) (form : FormRecord) :
    List RefEntry :=
  match env.assetsV1Fallback with
  | .ok avail =>
    let ft := pyLower (containerText "" form.customValues)
    avail.filterMap fun asset =>
      let an := pyLower (asset.attributes.name.getD "")
      if an != "" && pyContains ft an then
        some { rid := some (asset.id.getD ""),
               name := asset.attributes.name.getD "Unknown Asset",
               description := asset.attributes.description.getD "",
               rtype := "content_match",
               reason := "Asset name found in form content" }
      else none
  | .httpErr => []
  | .exc => []

/-- `get_form_asset_relationships` (app.py 948-1004): guard on a truthy
form id; on a 2xx assets response use the form references when nonempty,
else the in-form content search; on a non-2xx response fall back to
`search_assets_by_form_content`; on an exception return `[]`. -/
def get_form_asset_relationships (env : Env) (form : FormRecord) :
    List RefEntry :=
  if strTruthy form.id = false then []
  else
    match env.assetsV1 with
    | .ok avail =>
      if env.formReferences.isEmpty = false then env.formReferences
      else find_asset_relationships_in_form form avail
    | .httpErr => search_assets_by_form_content env form
    | .exc => []

/-- `entity_id.split(':')[-1]` applied when the id carries the lineage URN
marker (app.py 3357-3359). -/
def cleanEntityId (eid : String) : String :=
  if "urn:adsk.wipprod:dm.lineage:".data.isPrefixOf eid.data then
    (⟨(eid.data.reverse.takeWhile (fun c => c != ':')).reverse⟩ : String)
  else eid

/-- One iteration of the entity scan (app.py 3352-3381). `none` models the
`AttributeError` raised by `entity_id.startswith(...)` when the entity has
no id; that exception is caught only by the endpoint-level handler. -/
def entityStep (env : Env) (formId : Option String) (rel : Relationship)
    (acc : Bool × List RelAsset) (ent : Entity) :
    Option (Bool × List RelAsset) :=
  match ent.eid with
  | none => none
  | some eid0 =>
    let cid := cleanEntityId eid0
    if ent.etype == some "form" && some cid == formId then some (true, acc.2)
    else if ent.etype == some "asset" then
      match get_asset_details env cid with
      | some d =>
        some (acc.1, acc.2 ++
          [{ id := cid, name := d.name, description := d.description,
             clientAssetId := d.clientAssetId, locationId := d.locationId,
             locationName := ((env.locLookup.lookup d.locationId).getD "N/A"),
             barcode := d.barcode, atype := "asset",
             relationship_id := rel.rid }])
      | none => some acc
    else some acc

/-- The contribution of one relationship (app.py 3345-3387): its entities'
assets when the form is involved and at least one asset resolved. -/
def relationshipHits (env : Env) (formId : Option String)
    (rel : Relationship) : Option (List RelAsset) :=
  match rel.entities.foldlM (entityStep env formId rel) (false, []) with
  | none => none
  | some r => some (if r.1 && !r.2.isEmpty then r.2 else [])

/-- The scan of all relationships for one form (app.py 3342-3387). -/
def formRelationships (env : Env) (formId : Option String)
    (rels : List Relationship) : Option (List RelAsset) :=
  rels.foldlM (fun acc rel => (relationshipHits env formId rel).map
    (fun hits => acc ++ hits)) []

/-- The location-name enhancement pass (app.py 3389-3393). -/
def enhanceLocation (env : Env) (a : RelAsset) : RelAsset :=
  if strTruthy (some a.locationId) then
    { a with locationName :=
        (env.locLookup.lookup a.locationId).getD ("Location " ++ a.locationId) }
  else { a with locationName := "N/A" }

/-- One form's output record (app.py 3389-3401). -/
def processFormRecord (env : Env) (rels : List Relationship)
    (form : BatchForm) : Option OutForm :=
  match formRelationships env form.fid rels with
  | none => none
  | some frels =>
    some { form_id := form.fid,
           form_name := form.name.getD "Unknown Form",
           form_date := form.formDate.getD "",
           form_created := form.createdAt.getD "",
           relationship_id := form.relationship_id,
           related_assets := frels.map (enhanceLocation env) }

/-- Steps 4-5 of `get_form_exporter_data` (app.py 3309-3402): one
relationship fetch, then every form processed against it; `none` models an
uncaught exception aborting the whole batch. -/
def processAllForms (env : Env) (forms : List BatchForm) :
    Option (List OutForm) :=
  forms.mapM (processFormRecord env (search_project_relationships env))

theorem mapM_loop_of_forall_some {α β : Type} (f : α → Option β) (g : α → β)
    (h : ∀ a, f a = some (g a)) : ∀ (l : List α) (acc : List β),
    List.mapM.loop f l acc = some (acc.reverse ++ l.map g) := by
  intro l
  induction l with
  | nil => intro acc; simp [List.mapM.loop]
  | cons a t ih => intro acc; simp [List.mapM.loop, h a, ih]

theorem mapM_of_forall_some {α β : Type} (f : α → Option β) (g : α → β)
    (h : ∀ a, f a = some (g a)) : ∀ l : List α, l.mapM f = some (l.map g) := by
  intro l
  rw [show l.mapM f = List.mapM.loop f l [] from rfl,
    mapM_loop_of_forall_some f g h l []]
  simp

def c7BadEnv : Env :=
  { relSearch := .ok [{ rid := some "R1",
                        entities := [{ etype := some "asset", eid := none }] }] }

def c7Batch : BatchForm := { fid := some "F1" }

/-- C7 counterexample: the relationship search succeeds but returns a
malformed relationship whose entity record has no `id`; the batch loop's
`entity_id.startswith(...)` then raises, aborting the whole batch instead
of degrading that strategy to no results for the affected form. -/
theorem error_isolation_counterexample :
    search_project_relationships c7BadEnv ≠ [] ∧
    processAllForms c7BadEnv [c7Batch] = none := by
  constructor
  · decide
  · rfl

/-- C7 (amended): network failures and raised exceptions in the
relationship-discovery calls are isolated — a failed relationship search
yields a complete batch with empty per-form asset lists, a failed or
unmatched asset-detail lookup drops only that entity, a non-2xx assets
response falls back to the content search and an exception yields `[]`
for just that form — but a malformed relationship-search payload whose
entity lacks an id aborts the whole batch (see the counterexample). -/
theorem error_isolation_amended :
    (∀ (env : Env), (env.relSearch = .httpErr ∨ env.relSearch = .exc) →
      search_project_relationships env = [] ∧
      ∀ (forms : List BatchForm),
        processAllForms env forms = some (forms.map (fun form =>
          { form_id := form.fid,
            form_name := form.name.getD "Unknown Form",
            form_date := form.formDate.getD "",
            form_created := form.createdAt.getD "",
            relationship_id := form.relationship_id,
            related_assets := [] }))) ∧
    (∀ (env : Env) (formId : Option String) (rel : Relationship)
      (acc : Bool × List RelAsset) (ent : Entity) (eid0 : String),
      ent.eid = some eid0 → ent.etype = some "asset" →
      get_asset_details env (cleanEntityId eid0) = none →
      entityStep env formId rel acc ent = some acc) ∧
    (∀ (env : Env) (aid : String), env.assetsV2 aid = .exc →
      get_asset_details env aid = none) ∧
    (∀ (env : Env) (aid : String), env.assetsV2 aid = .httpErr →
      (env.assetsV2Retry aid = .httpErr ∨ env.assetsV2Retry aid = .exc) →
      get_asset_details env aid = none) ∧
    (∀ (env : Env) (form : FormRecord), env.assetsV1 = .httpErr →
      get_form_asset_relationships env form =
        if strTruthy form.id = false then []
        else search_assets_by_form_content env form) ∧
    (∀ (env : Env) (form : FormRecord), env.assetsV1 = .exc →
      get_form_asset_relationships env form = []) ∧
    (∀ (env : Env) (form : FormRecord),
      (env.assetsV1Fallback = .httpErr ∨ env.assetsV1Fallback = .exc) →
      search_assets_by_form_content env form = []) := by
  refine ⟨?_, ?_, ?_, ?_, ?_, ?_, ?_⟩
  · intro env h
    have hsp : search_project_relationships env = [] := by
      rcases h with h | h <;> simp [search_project_relationships, h]
    refine ⟨hsp, ?_⟩
    intro forms
    unfold processAllForms
    rw [hsp]
    exact mapM_of_forall_some _ _ (fun form => rfl) forms
  · intro env formId rel acc ent eid0 heid hasset hdet
    simp [entityStep, heid, hasset, hdet]
  · intro env aid h
    simp [get_asset_details, h]
  · intro env aid h h2
    rcases h2 with h2 | h2 <;> simp [get_asset_details, h, h2]
  · intro env form h
    unfold get_form_asset_relationships
    rw [h]
  · intro env form h
    unfold get_form_asset_relationships
    rw [h]
    simp
  · intro env form h
    rcases h with h | h <;> simp [search_assets_by_form_content, h]

def c7Env : Env := { relSearch := .exc }

/-- C7 witness: at a concrete environment whose relationship search raised,
the batch still produces one record per form with an empty asset list. -/
theorem error_isolation_amended_witness :
    search_project_relationships c7Env = [] ∧
    processAllForms c7Env [{ fid := some "F1" }] =
      some [{ form_id := some "F1", form_name := "Unknown Form",
              form_date := "", form_created := "", relationship_id := none,
              related_assets := [] }] := by
  have h := error_isolation_amended.1 c7Env (Or.inr rfl)
  exact ⟨h.1, by rw [h.2 [{ fid := some "F1" }]]; rfl⟩

/-! ### C10: the in-memory location cache and the eviction routine -/

/-- Python dict assignment on the in-memory `location_cache`: overwrite in
place, else append. -/
def memSet : List (String × Json) → String → Json → List (String × Json)
  | [], k, v => [(k, v)]
  | (k0, v0) :: rest, k, v =>
    if k0 == k then (k0, v) :: rest else (k0, v0) :: memSet rest k v

/-- The process state relevant to the location cache: the module-level
in-memory `location_cache` map, the three SQLite tables, and the cache
file's size in bytes. -/
structure ProcState where
  mem : List (String × Json)
  db : CacheDB
  fileSize : ℕ

/-- `clear_cache_file()` (app.py 3745-3761): drop the database file,
re-initialise empty tables, and reset the in-memory `location_cache`. -/
def clear_cache_file (st : ProcState) : ProcState :=
  { mem := [],
    db := { locations := [], forms := [], relationships := [] },
    fileSize := 0 }

/-- `check_cache_size()` (app.py 3763-3773): clear everything only when the
file exceeds `CACHE_SIZE_THRESHOLD`. -/
def check_cache_size (st : ProcState) : ProcState :=
  if CACHE_SIZE_THRESHOLD < st.fileSize then clear_cache_file st else st

/-- `cleanup_old_cache_entries()` as a state transformer: it opens only the
SQLite connection and never mentions `location_cache`. -/
def cleanupState (now : ℤ) (st : ProcState) : ProcState :=
  { st with db := cleanup_old_cache_entries now st.db }

/-- The `UPDATE location_cache SET last_accessed = ...` refresh on a
SQLite read hit (app.py 3977-3983). -/
def touchRow (t : List CacheRow) (key : String) (now : ℤ) : List CacheRow :=
  t.map (fun r => if r.pid == key then { r with lastAccessed := now } else r)

/-- The network-fetch tail of `get_all_locations_for_project` (app.py
3997-4050): on success store the lookup in memory and upsert it into
SQLite; on a non-2xx response or an exception return `{}` and write
nothing. -/
def locFetchPath (now : ℤ) (fetch : NetResult Json) (st : ProcState)
    (p : String) : Json × ProcState :=
  match fetch with
  | .ok j =>
    (j, { st with
          mem := memSet st.mem (locationCacheKey p) j,
          db := { st.db with
                  locations := cachePut st.db.locations p j now } })
  | .httpErr => (Json.obj [], st)
  | .exc => (Json.obj [], st)

/-- `get_all_locations_for_project` (app.py 3947-4050) as a state
transformer: size check, cleanup, in-memory hit, SQLite hit (touch the
row, parse, backfill memory), else fetch.  `fetch` is the outcome of the
locations request, carrying the already-built lookup dictionary. -/
def get_all_locations_for_project_state (now : ℤ) (fetch : NetResult Json)
    (st : ProcState) (p : String) : Json × ProcState :=
  let st2 := cleanupState now (check_cache_size st)
  let key := locationCacheKey p
  match st2.mem.lookup key with
  | some j => (j, st2)
  | none =>
    match st2.db.locations.find? (fun r => r.pid == key) with
    | some row =>
      let st3 := { st2 with db := { st2.db with
        locations := touchRow st2.db.locations key now } }
      match loads row.data with
      | some j => (j, { st3 with mem := memSet st3.mem key j })
      | none => locFetchPath now fetch st3 p
    | none => locFetchPath now fetch st2 p

/-- C10: the in-process location cache is exempt from age- and
capacity-based eviction.  `cleanup_old_cache_entries` rewrites only the
SQLite tables and leaves `location_cache` intact, so a lookup after the
eviction routine deleted the project's persistent row still answers from
the in-memory map; only `clear_cache_file`, reached exactly when the size
check trips, also empties the in-memory map. -/
theorem memory_cache_eviction_exempt :
    (∀ (now : ℤ) (st : ProcState),
      (cleanupState now st).mem = st.mem ∧
      (cleanupState now st).db = cleanup_old_cache_entries now st.db ∧
      (cleanupState now st).fileSize = st.fileSize) ∧
    (∀ (now : ℤ) (fetch : NetResult Json) (st : ProcState) (p : String)
      (j : Json),
      st.fileSize ≤ CACHE_SIZE_THRESHOLD →
      st.mem.lookup (locationCacheKey p) = some j →
      get_all_locations_for_project_state now fetch st p =
        (j, cleanupState now st)) ∧
    (∀ st : ProcState, st.fileSize ≤ CACHE_SIZE_THRESHOLD →
      check_cache_size st = st) ∧
    (∀ st : ProcState, CACHE_SIZE_THRESHOLD < st.fileSize →
      check_cache_size st = clear_cache_file st ∧
      (check_cache_size st).mem = []) := by
  refine ⟨?_, ?_, ?_, ?_⟩
  · intro now st
    exact ⟨rfl, rfl, rfl⟩
  · intro now fetch st p j h1 h2
    have hc : check_cache_size st = st := by
      unfold check_cache_size
      rw [if_neg (not_lt.mpr h1)]
    simp only [get_all_locations_for_project_state, hc, cleanupState]
    rw [h2]
  · intro st h
    unfold check_cache_size
    rw [if_neg (not_lt.mpr h)]
  · intro st h
    constructor
    · unfold check_cache_size
      rw [if_pos h]
    · unfold check_cache_size
      rw [if_pos h]
      rfl

def c10St : ProcState :=
  { mem := [("1234", Json.str "locations")],
    db := { locations := [{ pid := "1234", data := "x", lastAccessed := 0 }],
            forms := [], relationships := [] },
    fileSize := 0 }

/-- C10 witness: a state whose only persistent location row is 100 units
stale (deleted by the cleanup) still answers the lookup from the in-memory
map. -/
theorem memory_cache_eviction_exempt_witness :
    c10St.fileSize ≤ CACHE_SIZE_THRESHOLD ∧
    c10St.mem.lookup (locationCacheKey "b.1234") = some (Json.str "locations") ∧
    get_all_locations_for_project_state 100 .httpErr c10St "b.1234" =
      (Json.str "locations", cleanupState 100 c10St) :=
  ⟨Nat.zero_le _, rfl,
    memory_cache_eviction_exempt.2.1 100 .httpErr c10St "b.1234"
      (Json.str "locations") (Nat.zero_le _) rfl⟩
